import Mathlib

/-!
Verification development for the Maestro repository.

This file gives a shallow embedding, in Lean, of the parts of Maestro that
the specification's testable properties talk about:

* the Python-style string helpers used by `resolve_workspace_slug`
  (`maestro/db/repository.py`),
* the bounding-box sanitisation pipeline (`_sanitize_bbox`,
  `_normalize_bboxes` in `maestro/db/repository.py` and `_dedupe_bboxes`
  in `maestro/tools/vision.py`), with Python floats idealised as exact
  rationals and Python `round` as round-half-to-even on rationals,
* the relational store operations of `maestro/db/repository.py`
  (messages, conversation state, schedule events, workspaces, pages,
  highlights), with each repository function modelled as one transaction
  on an explicit database value,
* the conversation compaction and engine-switch logic of
  `maestro/messaging/conversation.py`, with the external summariser
  modelled as an oracle function,
* the heartbeat decision cascade of `maestro/engine/heartbeat.py`.

Timestamps are threaded as explicit `Nat` parameters, and generated ids
(SQL autoincrement, `evt_` uuids) are modelled by deterministic counters
stored in the database value; neither choice affects the properties proved
here.
-/

/-! ### Python string helpers

`str.strip()`, `str.lower()` and the slugification regexes used by
`resolve_workspace_slug` in `maestro/db/repository.py`. -/

/-- Python `str.isspace` characters relevant to `str.strip()` (ASCII set). -/
def isPyWs (c : Char) : Bool :=
  c == ' ' || c == '\t' || c == '\n' || c == '\r' || c == '\x0b' || c == '\x0c'

/-- Characters kept verbatim by the slugify regex `[^a-z0-9]+`. -/
def isSlugChar (c : Char) : Bool :=
  (97 ≤ c.toNat && c.toNat ≤ 122) || (48 ≤ c.toNat && c.toNat ≤ 57)

/-- Strip leading and trailing Python whitespace from a character list. -/
def pyStripChars (l : List Char) : List Char :=
  ((l.dropWhile isPyWs).reverse.dropWhile isPyWs).reverse

/-- Python `str.strip()`. -/
def pyStrip (s : String) : String :=
  String.mk (pyStripChars s.data)

/-- Python `str.lower()` (ASCII case mapping). -/
def pyLower (s : String) : String :=
  String.mk (s.data.map Char.toLower)

/-- Is this character an underscore? -/
def uscore (c : Char) : Bool := c == '_'

/-- First slugify regex, character-wise: every character outside `[a-z0-9]`
becomes an underscore.  Collapsing runs afterwards (below) yields the same
result as Python's `re.sub(r"[^a-z0-9]+", "_", t)`. -/
def slugMapChar (c : Char) : Char :=
  if isSlugChar c then c else '_'

/-- Second slugify regex `re.sub(r"_+", "_", s)`: collapse runs of
underscores to a single underscore. -/
def collapseU : List Char → List Char
  | [] => []
  | [c] => [c]
  | c :: d :: rest =>
    if uscore c && uscore d then collapseU (d :: rest)
    else c :: collapseU (d :: rest)

/-- Python `.strip("_")`. -/
def trimU (l : List Char) : List Char :=
  ((l.dropWhile uscore).reverse.dropWhile uscore).reverse

/-- Slugification on character lists (input already lowercased). -/
def slugChars (l : List Char) : List Char :=
  trimU (collapseU (l.map slugMapChar))

/-- The `slugify` helper inside `resolve_workspace_slug`
(`maestro/db/repository.py`): lowercase, collapse non-alphanumeric runs to
single underscores, collapse underscore runs, strip underscores, defaulting
to `"workspace"` when everything is stripped away. -/
def slugify (t : String) : String :=
  let r := slugChars (pyLower t).data
  if r.isEmpty then "workspace" else String.mk r

/-- A workspace row as read by `resolve_workspace_slug` and the heartbeat:
the columns of the `workspaces` table that the embedded operations inspect. -/
structure WorkspaceRow where
  id : Nat
  projectId : String
  slug : String
  title : String
  status : String
  updated : String
  deriving Repr, DecidableEq, Inhabited

/-- `resolve_workspace_slug` from `maestro/db/repository.py`, acting on the
list of workspace rows of one project: exact slug match first, then a match
against the slugified query, then a case-insensitive stripped title match. -/
def resolve_workspace_slug (workspaces : List WorkspaceRow) (raw : String) :
    Option String :=
  match workspaces.find? (fun w => w.slug == pyStrip raw) with
  | some w => some w.slug
  | none =>
    match workspaces.find? (fun w => w.slug == slugify raw) with
    | some w => some w.slug
    | none =>
      match workspaces.find? (fun w =>
          pyLower (pyStrip w.title) == pyLower (pyStrip raw)) with
      | some w => some w.slug
      | none => none

/-! ### Slugify is insensitive to stripped whitespace

`slugify (pyStrip s) = slugify s`: the whitespace removed by `str.strip()`
would have been collapsed into underscores and trimmed away anyway. -/

theorem trimU_uscore_cons (x : List Char) : trimU ('_' :: x) = trimU x := by
  simp [trimU, List.dropWhile_cons, uscore]

theorem trimU_collapseU_uscore_cons (l : List Char) :
    trimU (collapseU ('_' :: l)) = trimU (collapseU l) := by
  cases l with
  | nil => simp [collapseU, trimU, uscore]
  | cons d rest =>
    by_cases hd : d = '_'
    · subst hd
      simp [collapseU, uscore]
    · have hu : uscore d = false := by
        simp [uscore, hd]
      have hcol : collapseU ('_' :: d :: rest) = '_' :: collapseU (d :: rest) := by
        simp [collapseU, hu]
      rw [hcol, trimU_uscore_cons]

theorem collapseU_append_uscore (m : List Char) :
    collapseU (m ++ ['_']) = collapseU m ++ ['_'] ∨
      collapseU (m ++ ['_']) = collapseU m := by
  induction m with
  | nil => left; simp [collapseU]
  | cons c rest ih =>
    cases rest with
    | nil =>
      by_cases hc : c = '_'
      · subst hc; right; simp [collapseU, uscore]
      · left
        have hu : uscore c = false := by simp [uscore, hc]
        simp [collapseU, hu]
    | cons d rest2 =>
      have hshape : (c :: d :: rest2) ++ ['_'] = c :: d :: (rest2 ++ ['_']) := by
        simp
      by_cases hcd : uscore c && uscore d
      · rw [hshape]
        simp only [collapseU, hcd, if_pos]
        have := ih
        simpa [collapseU, hcd] using ih
      · rw [hshape]
        simp only [collapseU, hcd, if_neg]
        rcases ih with h | h
        · left
          have : collapseU (d :: (rest2 ++ ['_'])) = collapseU (d :: rest2) ++ ['_'] := by
            simpa using h
          simp [collapseU, hcd, this]
        · right
          have : collapseU (d :: (rest2 ++ ['_'])) = collapseU (d :: rest2) := by
            simpa using h
          simp [collapseU, hcd, this]

theorem dropWhile_append_of_ne_nil {p : Char → Bool} (x y : List Char)
    (h : x.dropWhile p ≠ []) :
    (x ++ y).dropWhile p = x.dropWhile p ++ y := by
  induction x with
  | nil => simp at h
  | cons a as ih =>
    by_cases ha : p a
    · simp only [List.cons_append, List.dropWhile_cons, ha, if_pos]
      apply ih
      simpa [List.dropWhile, ha] using h
    · simp [List.dropWhile, ha]

theorem dropWhile_append_of_nil {p : Char → Bool} (x y : List Char)
    (h : x.dropWhile p = []) :
    (x ++ y).dropWhile p = y.dropWhile p := by
  induction x with
  | nil => simp
  | cons a as ih =>
    by_cases ha : p a
    · simp only [List.cons_append, List.dropWhile_cons, ha, if_pos]
      apply ih
      simpa [List.dropWhile, ha] using h
    · simp [List.dropWhile, ha] at h

theorem trimU_append_uscore (x : List Char) :
    trimU (x ++ ['_']) = trimU x := by
  unfold trimU
  by_cases h : x.dropWhile uscore = []
  · rw [dropWhile_append_of_nil x ['_'] h, h]
    simp [List.dropWhile, uscore]
  · rw [dropWhile_append_of_ne_nil x ['_'] h]
    have : (x.dropWhile uscore ++ ['_']).reverse = '_' :: (x.dropWhile uscore).reverse := by
      simp
    rw [this]
    simp [List.dropWhile, uscore]

theorem trimU_collapseU_append_uscore (m : List Char) :
    trimU (collapseU (m ++ ['_'])) = trimU (collapseU m) := by
  rcases collapseU_append_uscore m with h | h
  · rw [h, trimU_append_uscore]
  · rw [h]

theorem slugChars_cons_nonslug (c : Char) (l : List Char)
    (hc : isSlugChar c = false) :
    slugChars (c :: l) = slugChars l := by
  unfold slugChars
  have : slugMapChar c = '_' := by simp [slugMapChar, hc]
  simp only [List.map_cons, this]
  exact trimU_collapseU_uscore_cons (l.map slugMapChar)

theorem slugChars_append_nonslug (c : Char) (l : List Char)
    (hc : isSlugChar c = false) :
    slugChars (l ++ [c]) = slugChars l := by
  unfold slugChars
  have : slugMapChar c = '_' := by simp [slugMapChar, hc]
  simp only [List.map_append, List.map_cons, List.map_nil, this]
  exact trimU_collapseU_append_uscore (l.map slugMapChar)

theorem toLower_of_pyWs {c : Char} (h : isPyWs c = true) : c.toLower = c := by
  simp only [isPyWs, Bool.or_eq_true, beq_iff_eq] at h
  rcases h with ((((h | h) | h) | h) | h) | h <;> subst h <;> decide

theorem isSlugChar_toLower_of_pyWs {c : Char} (h : isPyWs c = true) :
    isSlugChar c.toLower = false := by
  rw [toLower_of_pyWs h]
  simp only [isPyWs, Bool.or_eq_true, beq_iff_eq] at h
  rcases h with ((((h | h) | h) | h) | h) | h <;> subst h <;> decide

theorem slugChars_lower_dropWhile (l : List Char) :
    slugChars ((l.dropWhile isPyWs).map Char.toLower) =
      slugChars (l.map Char.toLower) := by
  induction l with
  | nil => simp
  | cons c rest ih =>
    by_cases hc : isPyWs c
    · rw [List.dropWhile_cons, if_pos hc, ih, List.map_cons]
      rw [slugChars_cons_nonslug c.toLower (rest.map Char.toLower)
        (isSlugChar_toLower_of_pyWs hc)]
    · rw [List.dropWhile_cons, if_neg hc]

theorem slugChars_lower_revStrip (r : List Char) :
    slugChars ((r.dropWhile isPyWs).reverse.map Char.toLower) =
      slugChars (r.reverse.map Char.toLower) := by
  induction r with
  | nil => simp
  | cons c rest ih =>
    by_cases hc : isPyWs c
    · rw [List.dropWhile_cons, if_pos hc, ih]
      have : (c :: rest).reverse.map Char.toLower =
          rest.reverse.map Char.toLower ++ [c.toLower] := by
        simp
      rw [this, slugChars_append_nonslug c.toLower (rest.reverse.map Char.toLower)
        (isSlugChar_toLower_of_pyWs hc)]
    · rw [List.dropWhile_cons, if_neg hc]

theorem slugChars_pyStrip (l : List Char) :
    slugChars ((pyStripChars l).map Char.toLower) =
      slugChars (l.map Char.toLower) := by
  unfold pyStripChars
  rw [slugChars_lower_revStrip ((l.dropWhile isPyWs).reverse)]
  rw [List.reverse_reverse]
  exact slugChars_lower_dropWhile l

theorem slugify_pyStrip (s : String) : slugify (pyStrip s) = slugify s := by
  unfold slugify pyLower pyStrip
  rw [show (String.mk (pyStripChars s.data)).data = pyStripChars s.data from rfl]
  rw [slugChars_pyStrip s.data]

/-! ### Claim C7 -/

/-- C7: for every collection of workspace rows whose stored slugs are
canonical (fixed points of `slugify`), and every query string whose
slugified form equals the slug of a stored workspace `W`,
`resolve_workspace_slug` returns `W`'s slug; the resolution cascade (exact
slug, then slugified query, then case-insensitive title) is the definition
of `resolve_workspace_slug` itself. -/
theorem resolve_workspace_slug_deterministic
    (ws : List WorkspaceRow) (q : String) (W : WorkspaceRow)
    (hmem : W ∈ ws)
    (hcanon : ∀ w ∈ ws, slugify w.slug = w.slug)
    (hq : slugify q = W.slug) :
    resolve_workspace_slug ws q = some W.slug := by
  unfold resolve_workspace_slug
  cases h1 : ws.find? (fun w => w.slug == pyStrip q) with
  | some w2 =>
    have hp := List.find?_some h1
    have hw2m : w2 ∈ ws := List.mem_of_find?_eq_some h1
    have heq : w2.slug = pyStrip q := by simpa using hp
    have hfix : slugify w2.slug = w2.slug := hcanon w2 hw2m
    have hstrip : slugify (pyStrip q) = pyStrip q := by
      rw [← heq]; exact hfix
    have : w2.slug = W.slug := by
      rw [heq, ← hstrip, slugify_pyStrip, hq]
    simp [this]
  | none =>
    cases h2 : ws.find? (fun w => w.slug == slugify q) with
    | some w3 =>
      have hp := List.find?_some h2
      have heq3 : w3.slug = slugify q := by simpa using hp
      simp [heq3, hq]
    | none =>
      exfalso
      have hall := List.find?_eq_none.mp h2
      have := hall W hmem
      simp [hq] at this

/-- Witness for C7 at a concrete workspace list and query. -/
theorem resolve_workspace_slug_deterministic_witness :
    resolve_workspace_slug
      [{ id := 1, projectId := "p1", slug := "foundation_framing",
         title := "Foundation & Framing", status := "active", updated := "" }]
      "Foundation & Framing" = some "foundation_framing" :=
  resolve_workspace_slug_deterministic _ _
    { id := 1, projectId := "p1", slug := "foundation_framing",
      title := "Foundation & Framing", status := "active", updated := "" }
    (by simp)
    (by intro w hw; simp at hw; subst hw; decide)
    (by decide)

/-! ### Rational model of Python float rounding

Python floats are idealised as exact rationals; `round(x, n)` is modelled
as round-half-to-even on rationals, which matches Python's documented
rounding mode for `round`. -/

/-- Floor of a rational, in a form the kernel can evaluate. -/
def ratFloor (q : ℚ) : ℤ := q.num / q.den

theorem ratFloor_eq_floor (q : ℚ) : ratFloor q = ⌊q⌋ := Rat.floor_def.symm

/-- Round a rational to the nearest integer, halves to even. -/
def rhe (q : ℚ) : ℤ :=
  if q - ratFloor q < 1 / 2 then ratFloor q
  else if 1 / 2 < q - ratFloor q then ratFloor q + 1
  else if ratFloor q % 2 = 0 then ratFloor q else ratFloor q + 1

/-- Python `round(q, n)` on exact rationals.  The power is taken in `ℕ`
so that the kernel can evaluate concrete instances. -/
def roundQ (n : ℕ) (q : ℚ) : ℚ :=
  (rhe (q * ((10 ^ n : ℕ) : ℚ)) : ℚ) / ((10 ^ n : ℕ) : ℚ)

theorem roundQ_eq (n : ℕ) (q : ℚ) :
    roundQ n q = (rhe (q * 10 ^ n) : ℚ) / 10 ^ n := by
  unfold roundQ
  push_cast
  rfl

/-- Python `max(a, b)` (first argument wins ties), in kernel-evaluable form. -/
def pyMax (a b : ℚ) : ℚ := if b ≤ a then a else b

/-- Python `min(a, b)` (first argument wins ties), in kernel-evaluable form. -/
def pyMin (a b : ℚ) : ℚ := if a ≤ b then a else b

theorem pyMax_eq (a b : ℚ) : pyMax a b = max a b := by
  unfold pyMax
  split
  · next h => rw [max_eq_left h]
  · next h => rw [max_eq_right (le_of_not_le h)]

theorem pyMin_eq (a b : ℚ) : pyMin a b = min a b := by
  unfold pyMin
  split
  · next h => rw [min_eq_left h]
  · next h => rw [min_eq_right (le_of_not_le h)]

theorem rhe_le_add_half (q : ℚ) : (rhe q : ℚ) ≤ q + 1 / 2 := by
  have hf : (⌊q⌋ : ℚ) ≤ q := Int.floor_le q
  have hf2 : q < ⌊q⌋ + 1 := Int.lt_floor_add_one q
  unfold rhe
  simp only [ratFloor_eq_floor]
  split
  · linarith
  · split
    · push_cast
      next h1 h2 => linarith
    · split
      · linarith
      · push_cast
        next h1 h2 h3 =>
        have : q - ⌊q⌋ = 1 / 2 := by linarith
        linarith

theorem rhe_nonneg {q : ℚ} (h : 0 ≤ q) : 0 ≤ rhe q := by
  have hf : 0 ≤ ⌊q⌋ := Int.floor_nonneg.mpr h
  unfold rhe
  simp only [ratFloor_eq_floor]
  split
  · exact hf
  · split
    · omega
    · split
      · exact hf
      · omega

theorem rhe_tie_even {q : ℚ} (h : (rhe q : ℚ) = q + 1 / 2) : rhe q % 2 = 0 := by
  have hf : (⌊q⌋ : ℚ) ≤ q := Int.floor_le q
  unfold rhe at h ⊢
  simp only [ratFloor_eq_floor] at h ⊢
  split at h
  · next h1 =>
    exfalso
    rw [show ((⌊q⌋ : ℤ) : ℚ) = (⌊q⌋ : ℚ) from rfl] at h
    linarith
  · split at h
    · next h1 h2 =>
      exfalso
      push_cast at h
      have : q - ⌊q⌋ = 1 / 2 := by linarith
      linarith
    · split at h
      · next h1 h2 h3 =>
        simp only [if_neg h1, if_neg h2, if_pos h3]
        exact h3
      · next h1 h2 h3 =>
        simp only [if_neg h1, if_neg h2, if_neg h3]
        omega

theorem roundQ_nonneg {n : ℕ} {q : ℚ} (h : 0 ≤ q) : 0 ≤ roundQ n q := by
  rw [roundQ_eq]
  apply div_nonneg
  · exact_mod_cast rhe_nonneg (by positivity)
  · positivity

theorem roundQ_le_one {n : ℕ} {q : ℚ} (h : q ≤ 1) : roundQ n q ≤ 1 := by
  rw [roundQ_eq]
  rw [div_le_one (by positivity)]
  have h1 : (rhe (q * 10 ^ n) : ℚ) ≤ q * 10 ^ n + 1 / 2 := rhe_le_add_half _
  have h2 : q * 10 ^ n ≤ 10 ^ n := by
    have hpow : (0 : ℚ) < 10 ^ n := by positivity
    nlinarith
  have h3 : (rhe (q * 10 ^ n) : ℚ) < (10 ^ n : ℚ) + 1 := by linarith
  have h4 : rhe (q * 10 ^ n) < 10 ^ n + 1 := by exact_mod_cast h3
  have h5 : rhe (q * 10 ^ n) ≤ 10 ^ n := by omega
  exact_mod_cast h5

theorem roundQ_add_le_one {n : ℕ} (hn : 0 < n) {x w : ℚ} (hx : 0 ≤ x) (hw : 0 ≤ w)
    (hxw : x + w ≤ 1) : roundQ n x + roundQ n w ≤ 1 := by
  have ha := rhe_le_add_half (x * 10 ^ n)
  have hb := rhe_le_add_half (w * 10 ^ n)
  have hpow : (0 : ℚ) < 10 ^ n := by positivity
  have key : rhe (x * 10 ^ n) + rhe (w * 10 ^ n) ≤ 10 ^ n := by
    by_contra hcon
    push_neg at hcon
    have hsum : (x + w) * 10 ^ n ≤ 10 ^ n := by nlinarith
    have hle : (rhe (x * 10 ^ n) : ℚ) + (rhe (w * 10 ^ n) : ℚ) ≤ (10 : ℚ) ^ n + 1 := by
      push_cast
      nlinarith
    have hle2 : rhe (x * 10 ^ n) + rhe (w * 10 ^ n) ≤ 10 ^ n + 1 := by
      exact_mod_cast hle
    have hab : rhe (x * 10 ^ n) + rhe (w * 10 ^ n) = 10 ^ n + 1 := by omega
    have habq : (rhe (x * 10 ^ n) : ℚ) + (rhe (w * 10 ^ n) : ℚ) = (10 : ℚ) ^ n + 1 := by
      exact_mod_cast hab
    have haeq : (rhe (x * 10 ^ n) : ℚ) = x * 10 ^ n + 1 / 2 := by
      push_cast at habq ⊢
      nlinarith
    have hbeq : (rhe (w * 10 ^ n) : ℚ) = w * 10 ^ n + 1 / 2 := by
      push_cast at habq ⊢
      nlinarith
    have hae := rhe_tie_even haeq
    have hbe := rhe_tie_even hbeq
    have heven : (2 : ℤ) ∣ 10 ^ n := dvd_pow (by norm_num) (Nat.pos_iff_ne_zero.mp hn)
    omega
  rw [roundQ_eq, roundQ_eq]
  rw [div_add_div_same, div_le_one hpow]
  calc ((rhe (x * 10 ^ n) : ℚ) + (rhe (w * 10 ^ n) : ℚ))
      = ((rhe (x * 10 ^ n) + rhe (w * 10 ^ n) : ℤ) : ℚ) := by push_cast; ring
    _ ≤ ((10 ^ n : ℤ) : ℚ) := by exact_mod_cast key
    _ = (10 : ℚ) ^ n := by push_cast; ring

/-! ### Bounding boxes

`_sanitize_bbox` / `_normalize_bboxes` from `maestro/db/repository.py` and
`_dedupe_bboxes` from `maestro/tools/vision.py`. -/

/-- A stored bounding box (the dict `{x, y, width, height}`). -/
structure Bbox where
  x : ℚ
  y : ℚ
  width : ℚ
  height : ℚ
  deriving Repr, DecidableEq, Inhabited

/-- One field of an incoming bbox dict as seen by `float(value.get(k, 0.0))`:
the key can be missing (Python defaults it to `0.0`), hold a value that
`float()` converts (modelled by the exact rational it denotes), or hold a
value on which `float()` raises `TypeError`/`ValueError`. -/
inductive PyField where
  | missing
  | num (q : ℚ)
  | malformed
  deriving Repr, DecidableEq

/-- Result of `float(value.get(key, 0.0))` for one field. -/
def PyField.toFloat : PyField → Option ℚ
  | .missing => some 0
  | .num q => some q
  | .malformed => none

/-- One element of the payload list passed to `_normalize_bboxes`: either
not a dict at all, or a dict described by its four coordinate fields. -/
inductive BboxInput where
  | notDict
  | dict (x y width height : PyField)
  deriving Repr, DecidableEq

/-- `_sanitize_bbox` from `maestro/db/repository.py`: reject non-dicts and
non-numeric fields, clamp `x`/`y` into `[0, 1]`, clamp `width`/`height`
into the remaining frame, reject degenerate boxes, and round every stored
coordinate to 6 decimal places. -/
def sanitize_bbox : BboxInput → Option Bbox
  | .notDict => none
  | .dict fx fy fw fh =>
    match fx.toFloat, fy.toFloat, fw.toFloat, fh.toFloat with
    | some x0, some y0, some w0, some h0 =>
      let x := pyMax 0 (pyMin 1 x0)
      let y := pyMax 0 (pyMin 1 y0)
      let width := pyMax 0 (pyMin (1 - x) w0)
      let height := pyMax 0 (pyMin (1 - y) h0)
      if width ≤ 0 ∨ height ≤ 0 then none
      else some
        { x := roundQ 6 x, y := roundQ 6 y,
          width := roundQ 6 width, height := roundQ 6 height }
    | _, _, _, _ => none

/-- `_normalize_bboxes` from `maestro/db/repository.py`: keep the sanitised
entries, in order, silently dropping everything `_sanitize_bbox` rejects. -/
def normalize_bboxes (value : List BboxInput) : List Bbox :=
  value.filterMap sanitize_bbox

/-- Round all four coordinates of a box to 4 decimal places — the
deduplication key (and output value) used by `_dedupe_bboxes` in
`maestro/tools/vision.py`. -/
def bboxKey (b : Bbox) : Bbox :=
  { x := roundQ 4 b.x, y := roundQ 4 b.y,
    width := roundQ 4 b.width, height := roundQ 4 b.height }

/-- Worker loop of `_dedupe_bboxes`: `seen` collects the 4-decimal keys
already emitted; each new box is emitted (as its rounded key) only if its
key has not been seen. -/
def dedupeGo (seen : List Bbox) : List Bbox → List Bbox
  | [] => []
  | b :: rest =>
    if bboxKey b ∈ seen then dedupeGo seen rest
    else bboxKey b :: dedupeGo (bboxKey b :: seen) rest

/-- `_dedupe_bboxes` from `maestro/tools/vision.py`. -/
def dedupe_bboxes (bs : List Bbox) : List Bbox :=
  dedupeGo [] bs

/-- The per-box sanity property claimed by the spec ("Bbox sanity"). -/
def BboxSane (b : Bbox) : Prop :=
  0 ≤ b.x ∧ 0 ≤ b.y ∧ 0 < b.width ∧ 0 < b.height ∧
    b.x + b.width ≤ 1 ∧ b.y + b.height ≤ 1

instance : DecidablePred BboxSane := fun b => by
  unfold BboxSane; infer_instance

/-! #### Bounds actually guaranteed by `_sanitize_bbox` -/

theorem sanitize_bbox_bounds {item : BboxInput} {b : Bbox}
    (h : sanitize_bbox item = some b) :
    0 ≤ b.x ∧ b.x ≤ 1 ∧ 0 ≤ b.y ∧ b.y ≤ 1 ∧ 0 ≤ b.width ∧ 0 ≤ b.height ∧
      b.x + b.width ≤ 1 ∧ b.y + b.height ≤ 1 := by
  cases item with
  | notDict => simp [sanitize_bbox] at h
  | dict fx fy fw fh =>
    cases hx : fx.toFloat with
    | none => simp [sanitize_bbox, hx] at h
    | some x0 =>
      cases hy : fy.toFloat with
      | none => simp [sanitize_bbox, hx, hy] at h
      | some y0 =>
        cases hw : fw.toFloat with
        | none => simp [sanitize_bbox, hx, hy, hw] at h
        | some w0 =>
          cases hh : fh.toFloat with
          | none => simp [sanitize_bbox, hx, hy, hw, hh] at h
          | some h0 =>
            simp only [sanitize_bbox, hx, hy, hw, hh, pyMax_eq, pyMin_eq] at h
            split at h
            · exact absurd h (by simp)
            · next hguard =>
              push_neg at hguard
              obtain ⟨hwpos, hhpos⟩ := hguard
              have hb := (Option.some_inj.mp h).symm
              subst hb
              set X := max 0 (min 1 x0) with hX
              set Y := max 0 (min 1 y0) with hY
              set W := max 0 (min (1 - X) w0) with hW
              set H := max 0 (min (1 - Y) h0) with hH
              have hX0 : 0 ≤ X := le_max_left 0 _
              have hX1 : X ≤ 1 := by
                apply max_le (by norm_num) (min_le_left 1 x0)
              have hY0 : 0 ≤ Y := le_max_left 0 _
              have hY1 : Y ≤ 1 := by
                apply max_le (by norm_num) (min_le_left 1 y0)
              have hW0 : 0 ≤ W := le_max_left 0 _
              have hH0 : 0 ≤ H := le_max_left 0 _
              have hXW : X + W ≤ 1 := by
                have : W ≤ 1 - X := by
                  apply max_le (by linarith) (min_le_left _ w0)
                linarith
              have hYH : Y + H ≤ 1 := by
                have : H ≤ 1 - Y := by
                  apply max_le (by linarith) (min_le_left _ h0)
                linarith
              refine ⟨roundQ_nonneg hX0, roundQ_le_one hX1, roundQ_nonneg hY0,
                roundQ_le_one hY1, roundQ_nonneg hW0, roundQ_nonneg hH0, ?_, ?_⟩
              · exact roundQ_add_le_one (by norm_num) hX0 hW0 hXW
              · exact roundQ_add_le_one (by norm_num) hY0 hH0 hYH

/-! #### Deduplication output has no duplicate 4-decimal keys -/

theorem rhe_intCast (k : ℤ) : rhe (k : ℚ) = k := by
  unfold rhe
  simp only [ratFloor_eq_floor, Int.floor_intCast]
  simp

theorem roundQ_roundQ (n : ℕ) (q : ℚ) : roundQ n (roundQ n q) = roundQ n q := by
  rw [roundQ_eq, roundQ_eq]
  have hpow : ((10 : ℚ) ^ n) ≠ 0 := by positivity
  rw [div_mul_cancel₀ _ hpow, rhe_intCast]

theorem bboxKey_bboxKey (b : Bbox) : bboxKey (bboxKey b) = bboxKey b := by
  unfold bboxKey
  simp [roundQ_roundQ]

theorem dedupeGo_pairwise (rest : List Bbox) :
    ∀ seen : List Bbox,
      (dedupeGo seen rest).Pairwise (fun a b => bboxKey a ≠ bboxKey b) ∧
        ∀ b ∈ dedupeGo seen rest, bboxKey b ∉ seen := by
  induction rest with
  | nil => intro seen; simp [dedupeGo]
  | cons b rest2 ih =>
    intro seen
    by_cases hb : bboxKey b ∈ seen
    · simpa [dedupeGo, hb] using ih seen
    · simp only [dedupeGo, if_neg hb]
      obtain ⟨hpw, hnotin⟩ := ih (bboxKey b :: seen)
      constructor
      · refine List.Pairwise.cons ?_ hpw
        intro c hc
        have := hnotin c hc
        rw [bboxKey_bboxKey]
        intro hcontra
        exact this (by rw [← hcontra]; exact List.mem_cons_self _ _)
      · intro c hc
        rcases List.mem_cons.mp hc with hceq | hcmem
        · subst hceq
          rw [bboxKey_bboxKey]
          exact hb
        · intro hcin
          exact hnotin c hcmem (List.mem_cons_of_mem _ hcin)

theorem dedupe_bboxes_pairwise (bs : List Bbox) :
    (dedupe_bboxes bs).Pairwise (fun a b => bboxKey a ≠ bboxKey b) :=
  (dedupeGo_pairwise bs []).1

/-! ### The relational store

Each repository function in `maestro/db/repository.py` opens one session,
performs its work, and commits; here each becomes a pure function from a
database value to a database value (plus its return value).  SQL
autoincrement ids are modelled by explicit counters; `_utcnow()` values are
threaded as parameters; the `bboxes` column (a JSON string in SQL) is
modelled as the list of boxes that `_serialize_bboxes` writes into it. -/

/-- A row of the `messages` table. -/
structure MessageRow where
  id : Nat
  projectId : String
  role : String
  content : String
  deriving Repr, DecidableEq, Inhabited

/-- A row of the `schedule_events` table. -/
structure EventRow where
  id : String
  projectId : String
  title : String
  start : String
  end_ : String
  type : String
  notes : String
  deriving Repr, DecidableEq, Inhabited

/-- A row of the `workspace_pages` table (the columns used here). -/
structure PageRow where
  id : Nat
  workspaceId : Nat
  pageName : String
  description : String
  deriving Repr, DecidableEq, Inhabited

/-- A row of the `workspace_highlights` table, with the JSON `bboxes`
column modelled as the box list it encodes. -/
structure HighlightRow where
  id : Nat
  workspacePageId : Nat
  mission : String
  status : String
  bboxes : List Bbox
  deriving Repr, DecidableEq, Inhabited

/-- A row of the `conversation_state` table.  Column defaults follow
`maestro/db/models.py`: empty summary, zero counters, no last compaction. -/
structure ConvStateRow where
  projectId : String
  summary : String
  totalExchanges : Nat
  compactions : Nat
  lastCompaction : Option Nat
  deriving Repr, DecidableEq, Inhabited

/-- The database: the tables the embedded operations touch, plus the
autoincrement counters. -/
structure DB where
  messages : List MessageRow
  nextMessageId : Nat
  events : List EventRow
  nextEventNum : Nat
  workspaces : List WorkspaceRow
  pages : List PageRow
  highlights : List HighlightRow
  nextHighlightId : Nat
  convStates : List ConvStateRow
  deriving Repr, DecidableEq, Inhabited

/-- An empty database. -/
def emptyDB : DB :=
  { messages := [], nextMessageId := 1, events := [], nextEventNum := 0,
    workspaces := [], pages := [], highlights := [], nextHighlightId := 1,
    convStates := [] }

/-- `get_messages` (no limit/offset): the messages of one project in stored
order.  Rows are appended in creation order and ids are assigned
monotonically, so list order, `created_at` order and id order agree. -/
def get_messages (db : DB) (pid : String) : List MessageRow :=
  db.messages.filter (fun m => m.projectId == pid)

/-- `count_messages`. -/
def count_messages (db : DB) (pid : String) : Nat :=
  (get_messages db pid).length

/-- `add_message`: insert a row with the next autoincrement id and return
the id. -/
def add_message (db : DB) (pid role content : String) : Nat × DB :=
  (db.nextMessageId,
   { db with
       messages := db.messages ++ [⟨db.nextMessageId, pid, role, content⟩],
       nextMessageId := db.nextMessageId + 1 })

/-- `delete_messages_before`: delete the rows of this project with id
strictly below the cutoff, returning how many were deleted. -/
def delete_messages_before (db : DB) (pid : String) (messageId : Nat) :
    Nat × DB :=
  ((db.messages.filter (fun m => m.projectId == pid && m.id < messageId)).length,
   { db with
       messages := db.messages.filter
         (fun m => !(m.projectId == pid && m.id < messageId)) })

/-- Look up the conversation-state row of a project. -/
def getConvState (db : DB) (pid : String) : Option ConvStateRow :=
  db.convStates.find? (fun st => st.projectId == pid)

/-- `get_or_create_conversation`: return the state row, creating it with
the model defaults when missing. -/
def get_or_create_conversation (db : DB) (pid : String) : ConvStateRow × DB :=
  match getConvState db pid with
  | some st => (st, db)
  | none =>
    (⟨pid, "", 0, 0, none⟩,
     { db with convStates := db.convStates ++ [⟨pid, "", 0, 0, none⟩] })

/-- The field updates of `update_conversation_state` applied to one row. -/
def applyConvUpdate (st : ConvStateRow) (summary : Option String)
    (incrementExchanges incrementCompactions : Bool) (now : Nat) :
    ConvStateRow :=
  let st1 := match summary with
    | some s => { st with summary := s }
    | none => st
  let st2 := if incrementExchanges
    then { st1 with totalExchanges := st1.totalExchanges + 1 }
    else st1
  if incrementCompactions
    then { st2 with compactions := st2.compactions + 1,
                    lastCompaction := some now }
    else st2

/-- `update_conversation_state`: update the project's state row in place,
creating it first (with defaults) when missing. -/
def update_conversation_state (db : DB) (pid : String)
    (summary : Option String)
    (incrementExchanges incrementCompactions : Bool) (now : Nat) : DB :=
  match getConvState db pid with
  | some _ =>
    { db with convStates := db.convStates.map (fun st =>
        if st.projectId == pid
        then applyConvUpdate st summary incrementExchanges incrementCompactions now
        else st) }
  | none =>
    { db with convStates := db.convStates ++
        [applyConvUpdate ⟨pid, "", 0, 0, none⟩ summary
          incrementExchanges incrementCompactions now] }

/-- Python `end or start` — `None` and the empty string are both falsy. -/
def pyOrStr (o : Option String) (dflt : String) : String :=
  match o with
  | none => dflt
  | some s => if s.isEmpty then dflt else s

/-- `add_event`: insert a row; an omitted (or empty) end defaults to the
start, the type is stripped and lowercased, the notes are stripped.  The
`evt_` uuid suffix is modelled by a deterministic counter. -/
def add_event (db : DB) (pid title start : String) (endOpt : Option String)
    (eventType : String) (notes : String) : EventRow × DB :=
  let e : EventRow :=
    { id := "evt_" ++ toString db.nextEventNum, projectId := pid,
      title := title, start := start, end_ := pyOrStr endOpt start,
      type := pyLower (pyStrip eventType), notes := pyStrip notes }
  (e, { db with events := db.events ++ [e], nextEventNum := db.nextEventNum + 1 })

/-- Look up an event scoped to a project. -/
def getEventRow (db : DB) (pid eid : String) : Option EventRow :=
  db.events.find? (fun e => e.projectId == pid && e.id == eid)

/-- `update_event`: overwrite exactly the provided fields, stripping string
values and additionally lowercasing the type; unknown events yield the
not-found string. -/
def update_event (db : DB) (pid eid : String)
    (title start endOpt eventType notes : Option String) :
    DB × Except String EventRow :=
  match getEventRow db pid eid with
  | none => (db, Except.error ("Event '" ++ eid ++ "' not found."))
  | some e =>
    let e2 : EventRow :=
      { e with
          title := match title with | some v => pyStrip v | none => e.title,
          start := match start with | some v => pyStrip v | none => e.start,
          end_ := match endOpt with | some v => pyStrip v | none => e.end_,
          type := match eventType with
            | some v => pyLower (pyStrip v)
            | none => e.type,
          notes := match notes with | some v => pyStrip v | none => e.notes }
    ({ db with events := db.events.map (fun x =>
         if x.projectId == pid && x.id == eid then e2 else x) },
     Except.ok e2)

/-- Look up a workspace row by project and slug (`_get_workspace_row`). -/
def findWorkspace (db : DB) (pid slug : String) : Option WorkspaceRow :=
  db.workspaces.find? (fun w => w.projectId == pid && w.slug == slug)

/-- Look up a workspace page (`_get_workspace_page`). -/
def findPage (db : DB) (workspaceId : Nat) (pageName : String) :
    Option PageRow :=
  db.pages.find? (fun p => p.workspaceId == workspaceId && p.pageName == pageName)

/-- `add_highlight`: create a pending highlight with an empty box list on
an existing workspace page, bumping the workspace's `updated_at`. -/
def add_highlight (db : DB) (pid slug pageName mission : String)
    (now : String) : DB × Except String HighlightRow :=
  match findWorkspace db pid slug with
  | none => (db, Except.error ("Workspace '" ++ slug ++ "' not found."))
  | some w =>
    match findPage db w.id pageName with
    | none =>
      (db, Except.error
        ("Page '" ++ pageName ++ "' is not in workspace '" ++ slug ++ "'."))
    | some p =>
      let h : HighlightRow :=
        ⟨db.nextHighlightId, p.id, pyStrip mission, "pending", []⟩
      ({ db with
           highlights := db.highlights ++ [h],
           nextHighlightId := db.nextHighlightId + 1,
           workspaces := db.workspaces.map (fun x =>
             if x.projectId == pid && x.slug == slug
             then { x with updated := now } else x) },
       Except.ok h)

/-- `complete_highlight`: unconditionally mark the row complete and store
the normalised payload; only a missing row is an error. -/
def complete_highlight (db : DB) (highlightId : Nat)
    (bboxes : List BboxInput) : DB × Except String HighlightRow :=
  match db.highlights.find? (fun h => h.id == highlightId) with
  | none =>
    (db, Except.error ("Highlight '" ++ toString highlightId ++ "' not found."))
  | some h =>
    let h2 := { h with status := "complete", bboxes := normalize_bboxes bboxes }
    ({ db with highlights := db.highlights.map (fun x =>
         if x.id == highlightId then h2 else x) },
     Except.ok h2)

/-- `fail_highlight`: unconditionally mark the row failed, leaving its
stored boxes untouched; only a missing row is an error. -/
def fail_highlight (db : DB) (highlightId : Nat) :
    DB × Except String HighlightRow :=
  match db.highlights.find? (fun h => h.id == highlightId) with
  | none =>
    (db, Except.error ("Highlight '" ++ toString highlightId ++ "' not found."))
  | some h =>
    let h2 := { h with status := "failed" }
    ({ db with highlights := db.highlights.map (fun x =>
         if x.id == highlightId then h2 else x) },
     Except.ok h2)

/-! ### Concrete fixtures and evaluation lemmas

Inputs used by the concrete instances below, with `simp`/`norm_num`
evaluation lemmas (`decide` cannot reduce `ℚ` arithmetic in the kernel). -/

theorem rhe_eval (q : ℚ) :
    rhe q = if q - ⌊q⌋ < 1 / 2 then ⌊q⌋
      else if 1 / 2 < q - ⌊q⌋ then ⌊q⌋ + 1
      else if ⌊q⌋ % 2 = 0 then ⌊q⌋ else ⌊q⌋ + 1 := by
  unfold rhe
  simp [ratFloor_eq_floor]

/-- A payload entry whose positive width and height round to zero:
`{x: 0, y: 0, width: 1e-07, height: 1e-07}`. -/
def bboxInputTiny : BboxInput :=
  BboxInput.dict (PyField.num 0) (PyField.num 0)
    (PyField.num (1 / 10000000)) (PyField.num (1 / 10000000))

/-- The payload entry `{x: 0.5, y: 0.5, width: 0.25, height: 0.25}`. -/
def bboxInputHalf : BboxInput :=
  BboxInput.dict (PyField.num (1 / 2)) (PyField.num (1 / 2))
    (PyField.num (1 / 4)) (PyField.num (1 / 4))

/-- The stored form of `bboxInputHalf`. -/
def bboxHalf : Bbox := ⟨1 / 2, 1 / 2, 1 / 4, 1 / 4⟩

/-- The stored form of `bboxInputTiny`: a degenerate box. -/
def bboxZero : Bbox := ⟨0, 0, 0, 0⟩

theorem sanitize_bbox_tiny_eval : sanitize_bbox bboxInputTiny = some bboxZero := by
  simp only [bboxInputTiny, bboxZero, sanitize_bbox, PyField.toFloat, pyMax, pyMin]
  norm_num [roundQ_eq, rhe_eval]

theorem sanitize_bbox_half_eval : sanitize_bbox bboxInputHalf = some bboxHalf := by
  simp only [bboxInputHalf, bboxHalf, sanitize_bbox, PyField.toFloat, pyMax, pyMin]
  norm_num [roundQ_eq, rhe_eval]

/-- A workspace row, page row and pending highlight for concrete runs. -/
def wsA : WorkspaceRow := ⟨1, "p1", "ws", "WS", "active", "t0"⟩

/-- A page row in `wsA`. -/
def pageA : PageRow := ⟨1, 1, "S-101", ""⟩

/-- A pending highlight on `pageA`. -/
def pendingHl : HighlightRow := ⟨1, 1, "find sleeves", "pending", []⟩

/-- A database holding one pending highlight. -/
def dbPending : DB :=
  { emptyDB with workspaces := [wsA], pages := [pageA],
                 highlights := [pendingHl], nextHighlightId := 2 }

/-! ### Claim C5 -/

/-- C5 counterexample: completing an existing highlight with the payload
`[tiny, half, half]` stores a box of width and height `0` (the `w > 0`,
`h > 0` part of the claim fails: the degeneracy guard runs before the
6-decimal rounding, which can round a tiny positive extent down to zero)
and stores the duplicated `half` box twice (`complete_highlight` performs
no deduplication, so the stored list has two boxes that coincide at
4-decimal precision). -/
theorem bbox_sanity_counterexample :
    (complete_highlight dbPending 1 [bboxInputTiny, bboxInputHalf, bboxInputHalf]).2 =
      Except.ok ⟨1, 1, "find sleeves", "complete", [bboxZero, bboxHalf, bboxHalf]⟩ ∧
    ¬ (∀ b ∈ [bboxZero, bboxHalf, bboxHalf], BboxSane b) ∧
    ¬ ([bboxZero, bboxHalf, bboxHalf] : List Bbox).Pairwise
        (fun a b => bboxKey a ≠ bboxKey b) := by
  refine ⟨?_, ?_, ?_⟩
  · simp [complete_highlight, dbPending, pendingHl, normalize_bboxes,
      sanitize_bbox_tiny_eval, sanitize_bbox_half_eval]
  · intro hall
    have := hall bboxZero (by simp)
    simp [BboxSane, bboxZero] at this
  · intro hpw
    rcases List.pairwise_cons.mp hpw with ⟨_, hrest⟩
    rcases List.pairwise_cons.mp hrest with ⟨h2, _⟩
    exact h2 bboxHalf (by simp) rfl

/-- C5 (amended): every box stored by `_normalize_bboxes` satisfies
`0 ≤ x ≤ 1`, `0 ≤ y ≤ 1`, `w ≥ 0`, `h ≥ 0` (strict positivity can be lost
to 6-decimal rounding), `x + w ≤ 1` and `y + h ≤ 1`; deduplication at
4-decimal precision is guaranteed not by `complete_highlight` but by the
vision worker's `_dedupe_bboxes`, whose output never contains two boxes
that coincide when rounded to 4 decimals. -/
theorem bbox_sanity_amended :
    (∀ (value : List BboxInput) (b : Bbox), b ∈ normalize_bboxes value →
        0 ≤ b.x ∧ b.x ≤ 1 ∧ 0 ≤ b.y ∧ b.y ≤ 1 ∧ 0 ≤ b.width ∧ 0 ≤ b.height ∧
          b.x + b.width ≤ 1 ∧ b.y + b.height ≤ 1) ∧
    (∀ bs : List Bbox,
        (dedupe_bboxes bs).Pairwise (fun a b => bboxKey a ≠ bboxKey b)) := by
  constructor
  · intro value b hb
    obtain ⟨item, _, hitem⟩ := List.mem_filterMap.mp hb
    exact sanitize_bbox_bounds hitem
  · exact dedupe_bboxes_pairwise

/-- Witness for the amended C5 at a concrete payload and box list. -/
theorem bbox_sanity_amended_witness :
    (0 ≤ bboxHalf.x ∧ bboxHalf.x ≤ 1 ∧ 0 ≤ bboxHalf.y ∧ bboxHalf.y ≤ 1 ∧
      0 ≤ bboxHalf.width ∧ 0 ≤ bboxHalf.height ∧
      bboxHalf.x + bboxHalf.width ≤ 1 ∧ bboxHalf.y + bboxHalf.height ≤ 1) ∧
    (dedupe_bboxes [bboxHalf, bboxHalf]).Pairwise
      (fun a b => bboxKey a ≠ bboxKey b) :=
  ⟨bbox_sanity_amended.1 [bboxInputHalf] bboxHalf
      (by simp [normalize_bboxes, sanitize_bbox_half_eval]),
   bbox_sanity_amended.2 [bboxHalf, bboxHalf]⟩

/-! ### Claim C4 -/

/-- A database holding the workspace and page but no highlight yet. -/
def dbWsPage : DB := { emptyDB with workspaces := [wsA], pages := [pageA] }

/-- C4 counterexample: `fail_highlight` called on a highlight already in
the terminal status `complete` still flips it to `failed` — the repository
functions set the status unconditionally, so terminal rows are not
immutable (the repository's own test suite exercises exactly this
complete-then-fail sequence). -/
theorem highlight_lifecycle_counterexample :
    (complete_highlight dbPending 1 [bboxInputHalf]).1.highlights =
      [⟨1, 1, "find sleeves", "complete", [bboxHalf]⟩] ∧
    (fail_highlight (complete_highlight dbPending 1 [bboxInputHalf]).1 1).2 =
      Except.ok ⟨1, 1, "find sleeves", "failed", [bboxHalf]⟩ := by
  have hc : complete_highlight dbPending 1 [bboxInputHalf] =
      ({ dbPending with
           highlights := [⟨1, 1, "find sleeves", "complete", [bboxHalf]⟩] },
       Except.ok ⟨1, 1, "find sleeves", "complete", [bboxHalf]⟩) := by
    simp [complete_highlight, dbPending, pendingHl, normalize_bboxes,
      sanitize_bbox_half_eval]
  rw [hc]
  constructor
  · rfl
  · simp [fail_highlight, dbPending]

/-- C4 (amended): every highlight is created in status `pending` with an
empty box list; but `complete_highlight` and `fail_highlight` update any
existing row unconditionally — they do not check the current status — so a
row in a terminal status can still be flipped by a later call (the
single-shot vision worker is what makes each highlight take one
`pending → complete` or `pending → failed` path in practice). -/
theorem highlight_lifecycle_amended :
    (∀ (db : DB) (pid slug pageName mission now : String) (db2 : DB)
        (h : HighlightRow),
        add_highlight db pid slug pageName mission now = (db2, Except.ok h) →
        h.status = "pending" ∧ h.bboxes = [] ∧ h ∈ db2.highlights) ∧
    (∀ (db : DB) (hid : Nat) (payload : List BboxInput) (h0 : HighlightRow),
        h0 ∈ db.highlights → h0.id = hid →
        ∃ db2 h, complete_highlight db hid payload = (db2, Except.ok h) ∧
          h.status = "complete" ∧ h.bboxes = normalize_bboxes payload) ∧
    (∀ (db : DB) (hid : Nat) (h0 : HighlightRow),
        h0 ∈ db.highlights → h0.id = hid →
        ∃ db2 h1, db.highlights.find? (fun x => x.id == hid) = some h1 ∧
          fail_highlight db hid =
            (db2, Except.ok { h1 with status := "failed" })) := by
  refine ⟨?_, ?_, ?_⟩
  · intro db pid slug pageName mission now db2 h heq
    cases hw : findWorkspace db pid slug with
    | none => simp [add_highlight, hw] at heq
    | some w =>
      cases hp : findPage db w.id pageName with
      | none => simp [add_highlight, hw, hp] at heq
      | some p =>
        simp only [add_highlight, hw, hp, Prod.mk.injEq, Except.ok.injEq] at heq
        obtain ⟨hdb2, hh⟩ := heq
        subst hh
        refine ⟨rfl, rfl, ?_⟩
        rw [← hdb2]
        simp
  · intro db hid payload h0 hmem hid0
    have hsome : (db.highlights.find? (fun x => x.id == hid)).isSome := by
      rw [List.find?_isSome]
      exact ⟨h0, hmem, by simp [hid0]⟩
    obtain ⟨h1, hfind⟩ := Option.isSome_iff_exists.mp hsome
    refine ⟨{ db with highlights := db.highlights.map (fun x =>
        if x.id == hid
        then { h1 with status := "complete", bboxes := normalize_bboxes payload }
        else x) },
      { h1 with status := "complete", bboxes := normalize_bboxes payload },
      ?_, rfl, rfl⟩
    simp [complete_highlight, hfind]
  · intro db hid h0 hmem hid0
    have hsome : (db.highlights.find? (fun x => x.id == hid)).isSome := by
      rw [List.find?_isSome]
      exact ⟨h0, hmem, by simp [hid0]⟩
    obtain ⟨h1, hfind⟩ := Option.isSome_iff_exists.mp hsome
    refine ⟨{ db with highlights := db.highlights.map (fun x =>
        if x.id == hid then { h1 with status := "failed" } else x) },
      h1, hfind, ?_⟩
    simp [fail_highlight, hfind]

/-- Witness for the amended C4: a concrete `add_highlight` run produces a
pending, box-free row. -/
theorem highlight_lifecycle_amended_witness :
    pendingHl.status = "pending" ∧ pendingHl.bboxes = [] ∧
      pendingHl ∈ dbPending.highlights :=
  highlight_lifecycle_amended.1 dbWsPage "p1" "ws" "S-101" "find sleeves" "t0"
    dbPending pendingHl
    (by
      simp [add_highlight, findWorkspace, findPage, dbWsPage, dbPending,
        emptyDB, wsA, pageA, pendingHl, pyStrip, pyStripChars]
      rfl)

/-! ### Claim C9 -/

/-- C9: `complete_highlight` never rejects its payload for an existing
highlight: it returns a success whose stored list is the normalised
payload, so entries that are not dicts, have a non-numeric coordinate, or
are degenerate after clamping are silently dropped; when every entry is
dropped the row is still marked `complete`, with an empty box list. -/
theorem complete_highlight_never_rejects :
    (∀ (db : DB) (hid : Nat) (payload : List BboxInput) (h0 : HighlightRow),
        h0 ∈ db.highlights → h0.id = hid →
        ∃ db2 h, complete_highlight db hid payload = (db2, Except.ok h) ∧
          h.status = "complete" ∧ h.bboxes = normalize_bboxes payload ∧
          ((∀ item ∈ payload, sanitize_bbox item = none) → h.bboxes = [])) ∧
    sanitize_bbox BboxInput.notDict = none ∧
    (∀ fy fw fh, sanitize_bbox (BboxInput.dict PyField.malformed fy fw fh) = none) ∧
    (∀ x0 y0 w0 h0 : ℚ, w0 ≤ 0 →
        sanitize_bbox (BboxInput.dict (PyField.num x0) (PyField.num y0)
          (PyField.num w0) (PyField.num h0)) = none) := by
  refine ⟨?_, rfl, ?_, ?_⟩
  · intro db hid payload h0 hmem hid0
    have hsome : (db.highlights.find? (fun x => x.id == hid)).isSome := by
      rw [List.find?_isSome]
      exact ⟨h0, hmem, by simp [hid0]⟩
    obtain ⟨h1, hfind⟩ := Option.isSome_iff_exists.mp hsome
    refine ⟨{ db with highlights := db.highlights.map (fun x =>
        if x.id == hid
        then { h1 with status := "complete", bboxes := normalize_bboxes payload }
        else x) },
      { h1 with status := "complete", bboxes := normalize_bboxes payload },
      ?_, rfl, rfl, ?_⟩
    · simp [complete_highlight, hfind]
    · intro hall
      simp only [normalize_bboxes]
      rw [List.filterMap_eq_nil]
      exact hall
  · intro fy fw fh
    simp [sanitize_bbox, PyField.toFloat]
  · intro x0 y0 w0 h0 hw0
    simp only [sanitize_bbox, PyField.toFloat, pyMax_eq, pyMin_eq]
    rw [if_pos]
    left
    exact max_le le_rfl (le_trans (min_le_right _ _) hw0)

/-- Witness for C9: completing the pending highlight with a payload whose
single entry is not a dict succeeds and stores an empty box list. -/
theorem complete_highlight_never_rejects_witness :
    ∃ db2 h, complete_highlight dbPending 1 [BboxInput.notDict] =
        (db2, Except.ok h) ∧
      h.status = "complete" ∧
      h.bboxes = normalize_bboxes [BboxInput.notDict] ∧
      ((∀ item ∈ [BboxInput.notDict], sanitize_bbox item = none) →
        h.bboxes = []) :=
  complete_highlight_never_rejects.1 dbPending 1 [BboxInput.notDict] pendingHl
    (by simp [dbPending]) rfl

/-! ### Claim C6 -/

/-- C6 counterexample: `add_event` accepts an explicit end date lying
strictly before the start date and stores it unchanged — neither the
repository nor the schedule tool validates the ordering, so `end ≥ start`
fails lexicographically on the stored row. -/
theorem schedule_event_order_counterexample :
    (add_event emptyDB "p1" "Pour" "2026-02-01" (some "2026-01-01")
        "milestone" "").1.start = "2026-02-01" ∧
    (add_event emptyDB "p1" "Pour" "2026-02-01" (some "2026-01-01")
        "milestone" "").1.end_ = "2026-01-01" ∧
    ¬ ((add_event emptyDB "p1" "Pour" "2026-02-01" (some "2026-01-01")
        "milestone" "").1.start ≤
       (add_event emptyDB "p1" "Pour" "2026-02-01" (some "2026-01-01")
        "milestone" "").1.end_) := by
  refine ⟨rfl, rfl, ?_⟩
  rw [String.le_iff_toList_le]
  decide

/-- C6 (amended): `add_event` stores the start verbatim and defaults an
omitted (or empty — Python `end or start`) end to the start; an explicitly
provided non-empty end is stored verbatim, with no `end ≥ start` check. -/
theorem add_event_end_default :
    ∀ (db : DB) (pid title start : String) (endOpt : Option String)
      (eventType notes : String),
      (add_event db pid title start endOpt eventType notes).1.start = start ∧
      (add_event db pid title start endOpt eventType notes).1.end_ =
        pyOrStr endOpt start ∧
      (endOpt = none →
        (add_event db pid title start endOpt eventType notes).1.end_ = start) ∧
      (∀ v, endOpt = some v → ¬ v.isEmpty →
        (add_event db pid title start endOpt eventType notes).1.end_ = v) := by
  intro db pid title start endOpt eventType notes
  refine ⟨rfl, rfl, ?_, ?_⟩
  · intro h
    subst h
    rfl
  · intro v hv hne
    subst hv
    simp [add_event, pyOrStr, hne]

/-- Witness for the amended C6 at concrete events. -/
theorem add_event_end_default_witness :
    (add_event emptyDB "p1" "Window delivery" "2026-03-05" none "delivery"
      "").1.end_ = "2026-03-05" :=
  (add_event_end_default emptyDB "p1" "Window delivery" "2026-03-05" none
    "delivery" "").2.2.1 rfl

/-! ### Claim C10 -/

theorem length_filter_add_length_filter_not {α : Type} (l : List α)
    (p : α → Bool) :
    (l.filter p).length + (l.filter (fun a => !(p a))).length = l.length := by
  induction l with
  | nil => rfl
  | cons a as ih =>
    by_cases ha : p a
    · simp [List.filter_cons, ha, ← ih]
      omega
    · simp [List.filter_cons, ha, ← ih]
      omega

/-- The messages of the project after `delete_messages_before`: exactly
those at or above the cutoff, in order. -/
theorem get_messages_delete (db : DB) (pid : String) (mid : Nat) :
    get_messages (delete_messages_before db pid mid).2 pid =
      (get_messages db pid).filter (fun m => !(m.id < mid)) := by
  unfold get_messages delete_messages_before
  simp only [List.filter_filter]
  apply List.filter_congr
  intro m _
  cases hproj : (m.projectId == pid) <;> simp [hproj]

/-- The messages of any other project are untouched. -/
theorem get_messages_delete_other (db : DB) (pid pid2 : String)
    (mid : Nat) (hne : pid2 ≠ pid) :
    get_messages (delete_messages_before db pid mid).2 pid2 =
      get_messages db pid2 := by
  unfold get_messages delete_messages_before
  simp only [List.filter_filter]
  apply List.filter_congr
  intro m _
  cases hproj : (m.projectId == pid2)
  · simp [hproj]
  · have : m.projectId = pid2 := by simpa using hproj
    have : (m.projectId == pid) = false := by
      simp [this, hne]
    simp [hproj, this]

/-- C10: `delete_messages_before` removes exactly the rows of the given
project with id strictly below the cutoff, returns their count, and leaves
messages of other projects, messages at or above the cutoff, and all
non-message tables (events, workspaces, pages, highlights, conversation
state) unchanged. -/
theorem delete_messages_before_spec :
    ∀ (db : DB) (pid : String) (mid : Nat),
      (∀ m : MessageRow, m ∈ (delete_messages_before db pid mid).2.messages ↔
          m ∈ db.messages ∧ ¬ (m.projectId = pid ∧ m.id < mid)) ∧
      (delete_messages_before db pid mid).1 =
        ((get_messages db pid).filter (fun m => m.id < mid)).length ∧
      (delete_messages_before db pid mid).1 +
          (get_messages (delete_messages_before db pid mid).2 pid).length =
        (get_messages db pid).length ∧
      (∀ pid2, pid2 ≠ pid →
        get_messages (delete_messages_before db pid mid).2 pid2 =
          get_messages db pid2) ∧
      (delete_messages_before db pid mid).2.events = db.events ∧
      (delete_messages_before db pid mid).2.workspaces = db.workspaces ∧
      (delete_messages_before db pid mid).2.pages = db.pages ∧
      (delete_messages_before db pid mid).2.highlights = db.highlights ∧
      (delete_messages_before db pid mid).2.convStates = db.convStates := by
  intro db pid mid
  refine ⟨?_, ?_, ?_, ?_, rfl, rfl, rfl, rfl, rfl⟩
  · intro m
    unfold delete_messages_before
    simp only [List.mem_filter]
    constructor
    · rintro ⟨hm, hb⟩
      refine ⟨hm, ?_⟩
      intro ⟨hpid, hid⟩
      simp [hpid, hid] at hb
    · rintro ⟨hm, hb⟩
      refine ⟨hm, ?_⟩
      by_cases hpid : m.projectId = pid
      · have : ¬ m.id < mid := fun hid => hb ⟨hpid, hid⟩
        simp [hpid, this]
      · simp [hpid]
  · unfold delete_messages_before get_messages
    simp only [List.filter_filter]
    congr 1
    apply List.filter_congr
    intro m _
    cases hproj : (m.projectId == pid) <;> simp [hproj, Bool.and_comm]
  · rw [get_messages_delete]
    unfold delete_messages_before
    simp only []
    have hsplit := length_filter_add_length_filter_not (get_messages db pid)
      (fun m => m.id < mid)
    rw [← hsplit]
    congr 1
    unfold get_messages
    simp only [List.filter_filter]
    congr 1
    apply List.filter_congr
    intro m _
    cases hproj : (m.projectId == pid) <;> simp [hproj, Bool.and_comm]
  · intro pid2 hne
    exact get_messages_delete_other db pid pid2 mid hne

/-! ### The conversation: token estimation, compaction, engine switch

`maestro/messaging/conversation.py` and `maestro/engine/config.py`.  The
external Gemini Flash summariser is modelled as an oracle
`summarize : String → Option String` (`none` models the exception path,
which falls back to `_fallback_summary`).  `self._fixed_tokens` is carried
as conversation state; `switch_engine` recomputes it from the system prompt
and tool definitions, which the switch does not change, so the value is
unchanged across a switch. -/

/-- `CHARS_PER_TOKEN`-based estimate: `len(text) // 4`. -/
def estimate_tokens (s : String) : Nat := s.length / 4

/-- `_estimate_messages_tokens` over stored rows (contents are strings). -/
def estimate_messages_tokens (msgs : List MessageRow) : Nat :=
  msgs.foldl (fun acc m => acc + estimate_tokens m.content) 0

/-- `KEEP_RECENT` from `engine/config.py`. -/
def KEEP_RECENT : Nat := 20

/-- `_needs_compaction`: usage of at least `COMPACTION_THRESHOLD = 0.65`;
a non-positive context limit counts as full usage.  `total / limit ≥ 13/20`
is written multiplicatively. -/
def needs_compaction (systemTokens summaryTokens messageTokens
    contextLimit : Nat) : Bool :=
  if contextLimit = 0 then true
  else 13 * contextLimit ≤ 20 * (systemTokens + summaryTokens + messageTokens)

/-- Python `text[:500]` and friends. -/
def strTake (s : String) (n : Nat) : String := String.mk (s.data.take n)

/-- `_messages_to_text`: one `Super:`/`Maestro:` line per message with
non-blank content, each clipped to 500 characters. -/
def messages_to_text (msgs : List MessageRow) : String :=
  String.intercalate "\n" (msgs.filterMap (fun m =>
    if (pyStrip m.content).isEmpty then none
    else some ((if m.role == "user" then "Super" else "Maestro") ++ ": " ++
      strTake m.content 500)))

/-- `_build_compaction_prompt`. -/
def build_compaction_prompt (existingSummary oldText : String) : String :=
  let parts : List String :=
    ["You are summarizing a conversation between Maestro (an AI construction plan analyst) and a superintendent. Produce a concise summary that preserves:",
     "- Key decisions made",
     "- Open questions and RFIs",
     "- Important findings (coordination gaps, conflicts, missing info)",
     "- Schedule items discussed (dates, deadlines, pour dates)",
     "- Any commitments or action items",
     "- The super's preferences and communication style",
     "",
     "Be factual and specific. Include dates, sheet numbers, and detail references.",
     "Do NOT include pleasantries, greetings, or filler."]
  let parts := if existingSummary.isEmpty then parts
    else parts ++ ["\n--- EXISTING SUMMARY ---\n" ++ existingSummary]
  let parts := parts ++
    ["\n--- NEW CONVERSATION TO INCORPORATE ---\n" ++ oldText,
     "\n--- UPDATED SUMMARY ---"]
  String.intercalate "\n" parts

/-- `_fallback_summary`: append (up to 2000 characters of) the old text to
the existing summary. -/
def fallback_summary (existingSummary oldText : String) : String :=
  let truncated := if 2000 < oldText.length
    then strTake oldText 2000 ++ "\n[...truncated...]"
    else oldText
  if existingSummary.isEmpty then truncated
  else existingSummary ++ "\n\n[Additional context]\n" ++ truncated

/-- One provider entry of `PROVIDERS` in `engine/config.py`. -/
structure ProviderCfg where
  provider : String
  model : String
  display : String
  contextLimit : Nat
  deriving Repr, DecidableEq, Inhabited

/-- `PROVIDERS` from `engine/config.py`. -/
def PROVIDERS : List (String × ProviderCfg) :=
  [("opus", ⟨"anthropic", "claude-opus-4-6", "Opus 4.6", 1000000⟩),
   ("gemini", ⟨"google", "gemini-3-pro-preview", "Gemini 3 Pro", 1000000⟩),
   ("gemini-flash", ⟨"google", "gemini-3-flash-preview", "Gemini 3 Flash", 1000000⟩),
   ("gpt", ⟨"openai", "gpt-5.2", "GPT-5.2", 128000⟩)]

/-- Dictionary lookup `PROVIDERS[name]`. -/
def lookupProvider (name : String) : Option ProviderCfg :=
  (PROVIDERS.find? (fun p => p.1 == name)).map (fun p => p.2)

/-- The conversation-object state that compaction and engine switching
read: engine identity, provider config and the estimated fixed token cost. -/
structure Conv where
  engineName : String
  providerName : String
  model : String
  contextLimit : Nat
  fixedTokens : Nat
  projectId : String
  deriving Repr, DecidableEq, Inhabited

/-- `_maybe_compact`, with transaction boundaries made explicit: the
returned list holds the database as committed after each repository call
(`get_or_create_conversation` via `_get_summary`, then — when compaction
runs — `delete_messages_before` and `update_conversation_state`, each in
its own session).  The last element is the final state. -/
def maybe_compact_txns (summarize : String → Option String) (now : Nat)
    (conv : Conv) (db : DB) : List DB :=
  let gocc := get_or_create_conversation db conv.projectId
  let summary := gocc.1.summary
  let db1 := gocc.2
  let messages := get_messages db1 conv.projectId
  if needs_compaction conv.fixedTokens (estimate_tokens summary)
      (estimate_messages_tokens messages) conv.contextLimit
  then
    if messages.length ≤ KEEP_RECENT then [db1]
    else
      let allRows := get_messages db1 conv.projectId
      if allRows.length ≤ KEEP_RECENT then [db1]
      else
        let cutoffId := (allRows.getD (allRows.length - KEEP_RECENT) default).id
        let oldMessages := messages.take (messages.length - KEEP_RECENT)
        let oldText := messages_to_text oldMessages
        let prompt := build_compaction_prompt summary oldText
        let newSummary := (summarize prompt).getD (fallback_summary summary oldText)
        let db2 := (delete_messages_before db1 conv.projectId cutoffId).2
        let db3 := update_conversation_state db2 conv.projectId
          (some newSummary) false true now
        [db1, db2, db3]
  else [db1]

/-- `_maybe_compact` as a state transformer: the final committed state. -/
def maybe_compact (summarize : String → Option String) (now : Nat)
    (conv : Conv) (db : DB) : DB :=
  (maybe_compact_txns summarize now conv db).getLastD db

/-- `switch_engine` from `maestro/messaging/conversation.py`: reject an
unknown or unchanged engine name, otherwise install the new provider
config and run `_maybe_compact` against the new context window. -/
def switch_engine (summarize : String → Option String) (now : Nat)
    (conv : Conv) (db : DB) (engineName : String) : String × Conv × DB :=
  match lookupProvider engineName with
  | none =>
    ("Unknown engine '" ++ engineName ++ "'. Available: " ++
      String.intercalate ", " (PROVIDERS.map (fun p => p.1)), conv, db)
  | some cfg =>
    if engineName == conv.engineName then
      ("Already running on " ++ engineName ++ ".", conv, db)
    else
      let conv2 : Conv := { conv with
        engineName := engineName, providerName := cfg.provider,
        model := cfg.model, contextLimit := cfg.contextLimit }
      let db2 := maybe_compact summarize now conv2 db
      ("Switched from " ++ conv.engineName ++ " to " ++ engineName ++
        " (" ++ cfg.display ++ "). Conversation preserved.", conv2, db2)

/-! ### Compaction lemmas -/

theorem get_messages_gocc (db : DB) (pid pid2 : String) :
    get_messages (get_or_create_conversation db pid).2 pid2 =
      get_messages db pid2 := by
  unfold get_or_create_conversation
  cases h : getConvState db pid <;> simp [get_messages]

theorem get_messages_update_conv (db : DB) (pid pid2 : String)
    (summary : Option String) (e c : Bool) (now : Nat) :
    get_messages (update_conversation_state db pid summary e c now) pid2 =
      get_messages db pid2 := by
  unfold update_conversation_state
  cases h : getConvState db pid <;> simp [get_messages]

theorem getConvState_gocc (db : DB) (pid : String) :
    getConvState (get_or_create_conversation db pid).2 pid =
      some (get_or_create_conversation db pid).1 := by
  unfold get_or_create_conversation
  cases h : getConvState db pid with
  | some st => simpa using h
  | none =>
    simp only []
    unfold getConvState at h ⊢
    rw [List.find?_append, h]
    simp

theorem getConvState_delete (db : DB) (pid pid2 : String) (mid : Nat) :
    getConvState (delete_messages_before db pid mid).2 pid2 =
      getConvState db pid2 := rfl

theorem applyConvUpdate_projectId (st : ConvStateRow) (summary : Option String)
    (e c : Bool) (now : Nat) :
    (applyConvUpdate st summary e c now).projectId = st.projectId := by
  unfold applyConvUpdate
  cases summary <;> cases e <;> cases c <;> rfl

theorem find?_map_update (pid : String) (summary : Option String)
    (e c : Bool) (now : Nat) :
    ∀ (l : List ConvStateRow) (st : ConvStateRow),
      l.find? (fun x => x.projectId == pid) = some st →
      (l.map (fun x => if x.projectId == pid
          then applyConvUpdate x summary e c now else x)).find?
        (fun x => x.projectId == pid) =
        some (applyConvUpdate st summary e c now) := by
  intro l
  induction l with
  | nil => intro st h; simp at h
  | cons a as ih =>
    intro st h
    by_cases ha : (a.projectId == pid) = true
    · simp only [List.find?_cons_of_pos, ha] at h
      have hst : a = st := by simpa using h
      subst hst
      simp only [List.map_cons, if_pos ha]
      simp only [List.find?_cons_of_pos, applyConvUpdate_projectId, ha]
    · have ha2 : (a.projectId == pid) = false := by simpa using ha
      simp only [List.find?_cons_of_neg, ha2, Bool.false_eq_true,
        not_false_eq_true] at h
      simp only [List.map_cons, if_neg ha]
      simp only [List.find?_cons_of_neg, ha2, Bool.false_eq_true,
        not_false_eq_true]
      exact ih st h

theorem getConvState_update {db : DB} {pid : String} {st : ConvStateRow}
    (h : getConvState db pid = some st) (summary : Option String)
    (e c : Bool) (now : Nat) :
    getConvState (update_conversation_state db pid summary e c now) pid =
      some (applyConvUpdate st summary e c now) := by
  unfold update_conversation_state
  rw [h]
  show getConvState { db with convStates := db.convStates.map (fun x =>
    if x.projectId == pid then applyConvUpdate x summary e c now else x) }
    pid = some (applyConvUpdate st summary e c now)
  unfold getConvState at h ⊢
  exact find?_map_update pid summary e c now db.convStates st h

/-- Does `_maybe_compact` actually compact?  True when the token estimate
crosses the threshold and more than `KEEP_RECENT` messages are stored. -/
def compaction_fires (conv : Conv) (db : DB) : Bool :=
  needs_compaction conv.fixedTokens
      (estimate_tokens (get_or_create_conversation db conv.projectId).1.summary)
      (estimate_messages_tokens (get_messages db conv.projectId))
      conv.contextLimit &&
    decide (KEEP_RECENT < (get_messages db conv.projectId).length)

/-- The id of the oldest kept message: `all_rows[-KEEP_RECENT]["id"]`. -/
def compaction_cutoff (conv : Conv) (db : DB) : Nat :=
  ((get_messages db conv.projectId).getD
    ((get_messages db conv.projectId).length - KEEP_RECENT) default).id

/-- The flattened text of the evicted messages. -/
def compaction_old_text (conv : Conv) (db : DB) : String :=
  messages_to_text ((get_messages db conv.projectId).take
    ((get_messages db conv.projectId).length - KEEP_RECENT))

/-- The summary installed by a compaction run: the oracle's answer to the
compaction prompt, or the truncation fallback when the oracle fails. -/
def compaction_new_summary (summarize : String → Option String)
    (conv : Conv) (db : DB) : String :=
  let summary := (get_or_create_conversation db conv.projectId).1.summary
  let oldText := compaction_old_text conv db
  (summarize (build_compaction_prompt summary oldText)).getD
    (fallback_summary summary oldText)

theorem maybe_compact_txns_not_fires (summarize : String → Option String)
    (now : Nat) (conv : Conv) (db : DB)
    (h : compaction_fires conv db = false) :
    maybe_compact_txns summarize now conv db =
      [(get_or_create_conversation db conv.projectId).2] := by
  unfold compaction_fires at h
  unfold maybe_compact_txns
  simp only [get_messages_gocc]
  rw [Bool.and_eq_false_iff] at h
  rcases h with h | h
  · rw [if_neg (by simp [h])]
  · have hlen : (get_messages db conv.projectId).length ≤ KEEP_RECENT := by
      simpa using h
    by_cases hneeds : needs_compaction conv.fixedTokens
        (estimate_tokens (get_or_create_conversation db conv.projectId).1.summary)
        (estimate_messages_tokens (get_messages db conv.projectId))
        conv.contextLimit = true
    · rw [if_pos hneeds, if_pos hlen]
    · rw [if_neg (by simp [hneeds])]

theorem maybe_compact_txns_fires (summarize : String → Option String)
    (now : Nat) (conv : Conv) (db : DB)
    (h : compaction_fires conv db = true) :
    maybe_compact_txns summarize now conv db =
      [(get_or_create_conversation db conv.projectId).2,
       (delete_messages_before (get_or_create_conversation db conv.projectId).2
         conv.projectId (compaction_cutoff conv db)).2,
       update_conversation_state
         (delete_messages_before (get_or_create_conversation db conv.projectId).2
           conv.projectId (compaction_cutoff conv db)).2
         conv.projectId (some (compaction_new_summary summarize conv db))
         false true now] := by
  unfold compaction_fires at h
  rw [Bool.and_eq_true] at h
  obtain ⟨hneeds, hlen⟩ := h
  have hlen2 : KEEP_RECENT < (get_messages db conv.projectId).length := by
    simpa using hlen
  unfold maybe_compact_txns
  simp only [get_messages_gocc]
  rw [if_pos hneeds, if_neg (by omega), if_neg (by omega)]
  rfl

/-- On a list whose ids are strictly increasing, filtering away the ids
below the id found at position `k` is exactly dropping the first `k`
elements. -/
theorem filter_cutoff_eq_drop (l : List MessageRow)
    (hsorted : l.Pairwise (fun a b => a.id < b.id)) (k : Nat)
    (hk : k < l.length) :
    l.filter (fun m => !(m.id < (l.getD k default).id)) = l.drop k := by
  have hget : l.getD k default = l[k] := by
    simp [List.getD_eq_getElem?_getD, List.getElem?_eq_getElem hk]
  have hdropdecomp : l.drop k = l[k] :: l.drop (k + 1) :=
    List.drop_eq_getElem_cons hk
  have hdecomp : l.take k ++ l.drop k = l := List.take_append_drop k l
  have hpair : (l.take k ++ l.drop k).Pairwise (fun a b => a.id < b.id) := by
    rw [hdecomp]; exact hsorted
  rw [List.pairwise_append] at hpair
  obtain ⟨_, hpdrop, hcross⟩ := hpair
  have hmemk : l[k] ∈ l.drop k := by
    rw [hdropdecomp]; exact List.mem_cons_self _ _
  have htake : ∀ a ∈ l.take k, a.id < l[k].id := fun a ha => hcross a ha _ hmemk
  have hdrop : ∀ b ∈ l.drop k, ¬ b.id < l[k].id := by
    intro b hb
    rw [hdropdecomp] at hb hpdrop
    rcases List.mem_cons.mp hb with hbeq | hbmem
    · subst hbeq; omega
    · have := (List.pairwise_cons.mp hpdrop).1 b hbmem
      omega
  have hcid : (l.getD k default).id = l[k].id := by rw [hget]
  set c := (l.getD k default).id with hc
  have h1 : (l.take k).filter (fun m => !(m.id < c)) = [] := by
    rw [List.filter_eq_nil_iff]
    intro a ha
    have := htake a ha
    simp [hcid, this]
  have h2 : (l.drop k).filter (fun m => !(m.id < c)) = l.drop k := by
    rw [List.filter_eq_self]
    intro b hb
    have := hdrop b hb
    simp [hcid, this]
  conv_lhs => rw [← hdecomp]
  rw [List.filter_append, h1, h2]
  simp

theorem getLastD_one (a d : DB) : List.getLastD [a] d = a := rfl

theorem getLastD_three (a b c d : DB) : List.getLastD [a, b, c] d = c := rfl

theorem applyConvUpdate_compaction (st : ConvStateRow) (s : String) (now : Nat) :
    applyConvUpdate st (some s) false true now =
      ⟨st.projectId, s, st.totalExchanges, st.compactions + 1, some now⟩ := rfl

/-- The project's messages after `_maybe_compact`: unchanged unless the
compaction fires, in which case exactly the rows below the cutoff are
deleted. -/
theorem get_messages_maybe_compact (summarize : String → Option String)
    (now : Nat) (conv : Conv) (db : DB) :
    get_messages (maybe_compact summarize now conv db) conv.projectId =
      if compaction_fires conv db then
        (get_messages db conv.projectId).filter
          (fun m => !(m.id < compaction_cutoff conv db))
      else get_messages db conv.projectId := by
  by_cases h : compaction_fires conv db = true
  · rw [if_pos h]
    unfold maybe_compact
    rw [maybe_compact_txns_fires summarize now conv db h, getLastD_three]
    rw [get_messages_update_conv, get_messages_delete, get_messages_gocc]
  · rw [if_neg h]
    unfold maybe_compact
    rw [maybe_compact_txns_not_fires summarize now conv db (by simpa using h),
      getLastD_one]
    exact get_messages_gocc db conv.projectId conv.projectId

/-! ### Claim C2 -/

/-- A conversation pointing at project `p1` on the gpt provider config,
with a large fixed token cost. -/
def convGpt : Conv := ⟨"gpt", "openai", "gpt-5.2", 128000, 90000, "p1"⟩

/-- The same conversation state on the opus provider config. -/
def convOpus : Conv := ⟨"opus", "anthropic", "claude-opus-4-6", 1000000, 90000, "p1"⟩

/-- A short user message row of project `p1`. -/
def msgRow (i : Nat) : MessageRow := ⟨i, "p1", "user", "aaaa"⟩

/-- A database with 21 stored messages (ids 1–21) and existing
conversation state for `p1`. -/
def dbMsgs : DB :=
  { emptyDB with messages := (List.range 21).map (fun i => msgRow (i + 1)),
                 nextMessageId := 22,
                 convStates := [⟨"p1", "", 0, 0, none⟩] }

/-- `dbMsgs` after the compaction delete: only ids 2–21 remain. -/
def dbMsgsDeleted : DB :=
  { dbMsgs with messages := (List.range 20).map (fun i => msgRow (i + 2)) }

/-- A database with 2 stored messages and conversation state for `p1`. -/
def dbTwo : DB :=
  { emptyDB with messages := [msgRow 1, msgRow 2], nextMessageId := 3,
                 convStates := [⟨"p1", "", 0, 0, none⟩] }

/-- C2: a `_maybe_compact` run never drops the stored message count of the
project below `min(KEEP_RECENT, count_before)`, and every message among
the `KEEP_RECENT` largest ids present before (the last rows in id order)
is still present after. -/
theorem compaction_preserves_recent :
    ∀ (summarize : String → Option String) (now : Nat) (conv : Conv) (db : DB),
      (get_messages db conv.projectId).Pairwise (fun a b => a.id < b.id) →
      min KEEP_RECENT (count_messages db conv.projectId) ≤
        count_messages (maybe_compact summarize now conv db) conv.projectId ∧
      ∀ m ∈ (get_messages db conv.projectId).drop
          ((get_messages db conv.projectId).length - KEEP_RECENT),
        m ∈ get_messages (maybe_compact summarize now conv db) conv.projectId := by
  intro summarize now conv db hsorted
  have hK : KEEP_RECENT = 20 := rfl
  have hmm := get_messages_maybe_compact summarize now conv db
  by_cases hf : compaction_fires conv db = true
  · rw [if_pos hf] at hmm
    have hlen : KEEP_RECENT < (get_messages db conv.projectId).length := by
      unfold compaction_fires at hf
      rw [Bool.and_eq_true] at hf
      simpa using hf.2
    have hk : (get_messages db conv.projectId).length - KEEP_RECENT <
        (get_messages db conv.projectId).length := by omega
    have hcut : compaction_cutoff conv db =
        ((get_messages db conv.projectId).getD
          ((get_messages db conv.projectId).length - KEEP_RECENT) default).id := rfl
    rw [hcut, filter_cutoff_eq_drop (get_messages db conv.projectId) hsorted
      ((get_messages db conv.projectId).length - KEEP_RECENT) hk] at hmm
    constructor
    · unfold count_messages
      rw [hmm, List.length_drop]
      omega
    · intro m hm
      rw [hmm]
      exact hm
  · rw [if_neg hf] at hmm
    constructor
    · unfold count_messages
      rw [hmm]
      exact min_le_right _ _
    · intro m hm
      rw [hmm]
      exact List.drop_subset _ _ hm

/-- Witness for C2 at a concrete two-message database. -/
theorem compaction_preserves_recent_witness :
    min KEEP_RECENT (count_messages dbTwo "p1") ≤
      count_messages (maybe_compact (fun _ => none) 0 convGpt dbTwo) "p1" ∧
    ∀ m ∈ (get_messages dbTwo "p1").drop
        ((get_messages dbTwo "p1").length - KEEP_RECENT),
      m ∈ get_messages (maybe_compact (fun _ => none) 0 convGpt dbTwo) "p1" :=
  compaction_preserves_recent (fun _ => none) 0 convGpt dbTwo (by decide)

/-! ### Claim C1 -/

/-- C1 counterexample: on a concrete compaction run the trace of committed
transactions has three states, and the middle one — committed by
`delete_messages_before`, which runs in its own session — already has the
old rows deleted while still carrying the old summary (empty) and the old
compaction counter; the new summary `"S"` only appears in the third state.
So deletion and the conversation-state update are two transactions, not
one, and an observer between the commits sees deleted rows without the new
summary. -/
theorem compaction_atomicity_counterexample :
    maybe_compact_txns (fun _ => some "S") 7 convGpt dbMsgs =
      [dbMsgs, dbMsgsDeleted,
       { dbMsgsDeleted with convStates := [⟨"p1", "S", 0, 1, some 7⟩] }] ∧
    get_messages dbMsgsDeleted "p1" ≠ get_messages dbMsgs "p1" ∧
    getConvState dbMsgsDeleted "p1" = some ⟨"p1", "", 0, 0, none⟩ ∧
    ("" : String) ≠ "S" := by
  refine ⟨by decide, by decide, by decide, by decide⟩

/-- C1 (amended): when compaction fires, `_maybe_compact` issues the
deletion and the conversation-state update as two consecutive separate
transactions (each repository call commits its own session): the committed
trace is `[initial, after-delete, final]`; the after-delete state has
exactly the rows below the cutoff removed but the conversation state
untouched, and only the final state carries the new summary, the bumped
compaction counter and the compaction timestamp. -/
theorem compaction_two_transactions :
    ∀ (summarize : String → Option String) (now : Nat) (conv : Conv) (db : DB),
      compaction_fires conv db = true →
      maybe_compact_txns summarize now conv db =
        [(get_or_create_conversation db conv.projectId).2,
         (delete_messages_before (get_or_create_conversation db conv.projectId).2
           conv.projectId (compaction_cutoff conv db)).2,
         maybe_compact summarize now conv db] ∧
      get_messages
          (delete_messages_before (get_or_create_conversation db conv.projectId).2
            conv.projectId (compaction_cutoff conv db)).2 conv.projectId =
        (get_messages db conv.projectId).filter
          (fun m => !(m.id < compaction_cutoff conv db)) ∧
      getConvState
          (delete_messages_before (get_or_create_conversation db conv.projectId).2
            conv.projectId (compaction_cutoff conv db)).2 conv.projectId =
        some (get_or_create_conversation db conv.projectId).1 ∧
      (∃ st3, getConvState (maybe_compact summarize now conv db) conv.projectId =
          some st3 ∧
        st3.summary = compaction_new_summary summarize conv db ∧
        st3.compactions =
          (get_or_create_conversation db conv.projectId).1.compactions + 1 ∧
        st3.lastCompaction = some now) ∧
      get_messages (maybe_compact summarize now conv db) conv.projectId =
        (get_messages db conv.projectId).filter
          (fun m => !(m.id < compaction_cutoff conv db)) := by
  intro summarize now conv db h
  have htxns := maybe_compact_txns_fires summarize now conv db h
  have hfinal : maybe_compact summarize now conv db =
      update_conversation_state
        (delete_messages_before (get_or_create_conversation db conv.projectId).2
          conv.projectId (compaction_cutoff conv db)).2
        conv.projectId (some (compaction_new_summary summarize conv db))
        false true now := by
    unfold maybe_compact
    rw [htxns, getLastD_three]
  have hdelstate : getConvState
      (delete_messages_before (get_or_create_conversation db conv.projectId).2
        conv.projectId (compaction_cutoff conv db)).2 conv.projectId =
      some (get_or_create_conversation db conv.projectId).1 := by
    rw [getConvState_delete]
    exact getConvState_gocc db conv.projectId
  refine ⟨?_, ?_, hdelstate, ?_, ?_⟩
  · rw [htxns, hfinal]
  · rw [get_messages_delete, get_messages_gocc]
  · rw [hfinal]
    rw [getConvState_update hdelstate]
    refine ⟨_, rfl, ?_, ?_, ?_⟩ <;>
      rw [applyConvUpdate_compaction]
  · rw [hfinal, get_messages_update_conv, get_messages_delete, get_messages_gocc]

/-- Witness for the amended C1: the intermediate committed state of the
concrete run still carries the pre-compaction conversation state. -/
theorem compaction_two_transactions_witness :
    getConvState
        (delete_messages_before
          (get_or_create_conversation dbMsgs "p1").2 "p1"
          (compaction_cutoff convGpt dbMsgs)).2 "p1" =
      some (get_or_create_conversation dbMsgs "p1").1 :=
  (compaction_two_transactions (fun _ => some "S") 7 convGpt dbMsgs
    (by decide)).2.2.1

/-! ### Claim C3 -/

/-- C3 counterexample: switching the engine from opus (1,000,000-token
window) to gpt (128,000-token window) on a conversation whose estimate now
exceeds the threshold triggers the compaction inside `switch_engine`,
which deletes stored messages: `get_messages` differs before and after the
switch. -/
theorem switch_engine_counterexample :
    get_messages (switch_engine (fun _ => some "S") 7 convOpus dbMsgs
        "gpt").2.2 "p1" ≠
      get_messages dbMsgs "p1" := by decide

/-- The conversation state after `switch_engine` installs config `cfg`
under `name` (`_fixed_tokens` is re-estimated from the unchanged system
prompt and tool definitions, so it keeps its value). -/
def switchedConv (conv : Conv) (name : String) (cfg : ProviderCfg) : Conv :=
  { conv with engineName := name, providerName := cfg.provider,
              model := cfg.model, contextLimit := cfg.contextLimit }

/-- C3 (amended): `switch_engine` leaves the stored history untouched for
an unknown or unchanged engine name, and also whenever the compaction
check against the new context window does not fire; when it does fire,
the switch deletes exactly the rows below the cutoff, so the
`KEEP_RECENT` most recent messages always survive a switch. -/
theorem switch_engine_lossless_amended :
    ∀ (summarize : String → Option String) (now : Nat) (conv : Conv)
      (db : DB) (name : String),
      (lookupProvider name = none →
        (switch_engine summarize now conv db name).2.2 = db) ∧
      (name = conv.engineName →
        (switch_engine summarize now conv db name).2.2 = db) ∧
      (∀ cfg, lookupProvider name = some cfg → name ≠ conv.engineName →
        compaction_fires (switchedConv conv name cfg) db = false →
        get_messages (switch_engine summarize now conv db name).2.2
          conv.projectId = get_messages db conv.projectId) ∧
      ((get_messages db conv.projectId).Pairwise (fun a b => a.id < b.id) →
        ∀ m ∈ (get_messages db conv.projectId).drop
            ((get_messages db conv.projectId).length - KEEP_RECENT),
          m ∈ get_messages (switch_engine summarize now conv db name).2.2
            conv.projectId) := by
  intro summarize now conv db name
  have hK : KEEP_RECENT = 20 := rfl
  have hproj : ∀ cfg, (switchedConv conv name cfg).projectId = conv.projectId :=
    fun _ => rfl
  refine ⟨?_, ?_, ?_, ?_⟩
  · intro h
    simp only [switch_engine, h]
  · intro h
    cases hlp : lookupProvider name with
    | none => simp only [switch_engine, hlp]
    | some cfg =>
      simp only [switch_engine, hlp]
      rw [if_pos (by simp [h])]
  · intro cfg hcfg hne hff
    have hsame : (name == conv.engineName) = false := by simp [hne]
    simp only [switch_engine, hcfg, hsame, Bool.false_eq_true, if_false]
    have hmm := get_messages_maybe_compact summarize now
      (switchedConv conv name cfg) db
    rw [if_neg (by simp [hff]), hproj cfg] at hmm
    show get_messages (maybe_compact summarize now (switchedConv conv name cfg)
      db) conv.projectId = get_messages db conv.projectId
    exact hmm
  · intro hsorted m hm
    cases hlp : lookupProvider name with
    | none =>
      simp only [switch_engine, hlp]
      exact List.drop_subset _ _ hm
    | some cfg =>
      by_cases hsame : (name == conv.engineName) = true
      · simp only [switch_engine, hlp, hsame, if_true]
        exact List.drop_subset _ _ hm
      · have hsame2 : (name == conv.engineName) = false := by
          simpa using hsame
        simp only [switch_engine, hlp, hsame2, Bool.false_eq_true, if_false]
        have hmm := get_messages_maybe_compact summarize now
          (switchedConv conv name cfg) db
        rw [hproj cfg] at hmm
        show m ∈ get_messages (maybe_compact summarize now
          (switchedConv conv name cfg) db) conv.projectId
        by_cases hf : compaction_fires (switchedConv conv name cfg) db = true
        · rw [if_pos hf] at hmm
          have hlen : KEEP_RECENT < (get_messages db conv.projectId).length := by
            unfold compaction_fires at hf
            rw [Bool.and_eq_true] at hf
            have := hf.2
            rw [hproj cfg] at this
            simpa using this
          have hk : (get_messages db conv.projectId).length - KEEP_RECENT <
              (get_messages db conv.projectId).length := by omega
          have hcut : compaction_cutoff (switchedConv conv name cfg) db =
              ((get_messages db conv.projectId).getD
                ((get_messages db conv.projectId).length - KEEP_RECENT)
                default).id := rfl
          rw [hcut, filter_cutoff_eq_drop (get_messages db conv.projectId)
            hsorted ((get_messages db conv.projectId).length - KEEP_RECENT)
            hk] at hmm
          rw [hmm]
          exact hm
        · rw [if_neg hf] at hmm
          rw [hmm]
          exact List.drop_subset _ _ hm

/-- Witness for the amended C3: switching `dbTwo` from opus to gemini does
not change the stored messages. -/
theorem switch_engine_lossless_amended_witness :
    get_messages (switch_engine (fun _ => none) 0 convOpus dbTwo
        "gemini").2.2 "p1" = get_messages dbTwo "p1" :=
  (switch_engine_lossless_amended (fun _ => none) 0 convOpus dbTwo
    "gemini").2.2.1 ⟨"google", "gemini-3-pro-preview", "Gemini 3 Pro", 1000000⟩
    (by decide) (by decide) (by decide)

/-! ### Claim C8 — the heartbeat decision cascade

`decide_heartbeat_mode` from `maestro/engine/heartbeat.py`.  Its inputs
are the dicts produced by `upcoming_events` (modelled by `EventRow`) and
`list_workspaces` (modelled by `WsSummary`), plus an arbitrary list of gap
dicts (a type parameter here, since only emptiness and the first five
entries matter).  The embedded decision keeps the observable fields
`mode`, `should_message` and the chosen targets; the human-readable
`reason` strings and the randomised boredom target/streak bookkeeping of
`_pick_boredom_target` are not modelled, as no claim depends on them. -/

/-- One entry of the `list_workspaces` output consumed by the heartbeat. -/
structure WsSummary where
  slug : String
  title : String
  pageCount : Nat
  status : String
  updated : String
  deriving Repr, DecidableEq, Inhabited

/-- The observable part of a heartbeat decision dict. -/
structure HbDecision (α : Type) where
  mode : String
  shouldMessage : Bool
  targetEvents : List EventRow
  targetWorkspace : Option WsSummary
  targetGaps : List α
  deriving Repr

/-- `decide_heartbeat_mode`: urgent on any upcoming event, else targeted
on the least-recently-updated active workspace with pages (Python's stable
`sort` by the `updated` string, then index 0 — modelled by a stable merge
sort), else curious on the first five gaps, else bored. -/
def decide_heartbeat_mode {α : Type} (scheduleEvents : List EventRow)
    (workspaces : List WsSummary) (gaps : List α) : HbDecision α :=
  if !scheduleEvents.isEmpty then
    ⟨"urgent", true, scheduleEvents, none, []⟩
  else
    let activeWorkspaces := workspaces.filter (fun w =>
      w.status == "active" && decide (0 < w.pageCount))
    if !activeWorkspaces.isEmpty then
      ⟨"targeted", false, [],
        (activeWorkspaces.mergeSort
          (fun a b => decide (a.updated ≤ b.updated))).head?, []⟩
    else if !gaps.isEmpty then
      ⟨"curious", false, [], none, gaps.take 5⟩
    else
      ⟨"bored", false, [], none, []⟩

/-- The active-with-pages filter of the targeted branch. -/
def activeWithPages (workspaces : List WsSummary) : List WsSummary :=
  workspaces.filter (fun w => w.status == "active" && decide (0 < w.pageCount))

/-- The stable sort of the targeted branch. -/
def leastUpdatedFirst (l : List WsSummary) : List WsSummary :=
  l.mergeSort (fun a b => decide (a.updated ≤ b.updated))

theorem leastUpdatedFirst_sorted (l : List WsSummary) :
    (leastUpdatedFirst l).Pairwise
      (fun a b => (decide (a.updated ≤ b.updated)) = true) :=
  List.sorted_mergeSort
    (fun a b c hab hbc => by
      simp only [decide_eq_true_eq] at hab hbc ⊢
      exact le_trans hab hbc)
    (fun a b => by
      simp only [Bool.or_eq_true, decide_eq_true_eq]
      exact le_total a.updated b.updated)
    l

theorem leastUpdatedFirst_perm (l : List WsSummary) :
    List.Perm (leastUpdatedFirst l) l :=
  List.mergeSort_perm l _

theorem leastUpdatedFirst_head_min (l : List WsSummary) (hne : l ≠ []) :
    ∃ t, (leastUpdatedFirst l).head? = some t ∧ t ∈ l ∧
      ∀ w ∈ l, t.updated ≤ w.updated := by
  have hperm := leastUpdatedFirst_perm l
  have hsne : leastUpdatedFirst l ≠ [] := by
    intro hnil
    rw [hnil] at hperm
    exact hne hperm.symm.eq_nil
  obtain ⟨t, rest, hcons⟩ := List.exists_cons_of_ne_nil hsne
  refine ⟨t, by rw [hcons]; rfl, ?_, ?_⟩
  · exact hperm.mem_iff.mp (by rw [hcons]; exact List.mem_cons_self _ _)
  · intro w hw
    have hwsorted : w ∈ leastUpdatedFirst l := hperm.mem_iff.mpr hw
    rw [hcons] at hwsorted
    rcases List.mem_cons.mp hwsorted with hweq | hwrest
    · subst hweq; exact le_refl _
    · have hpw := leastUpdatedFirst_sorted l
      rw [hcons] at hpw
      have := (List.pairwise_cons.mp hpw).1 w hwrest
      simpa using this

/-- C8: the heartbeat mode cascade — urgent exactly when an upcoming event
exists, else targeted when some active workspace has pages (and the chosen
target is a least-recently-updated one), else curious when gaps exist,
else bored; and `should_message` is true exactly in urgent mode. -/
theorem decide_heartbeat_mode_cascade {α : Type} :
    ∀ (scheduleEvents : List EventRow) (workspaces : List WsSummary)
      (gaps : List α),
      (scheduleEvents ≠ [] →
        (decide_heartbeat_mode scheduleEvents workspaces gaps).mode =
          "urgent") ∧
      (scheduleEvents = [] → activeWithPages workspaces ≠ [] →
        (decide_heartbeat_mode scheduleEvents workspaces gaps).mode =
            "targeted" ∧
          ∃ t, (decide_heartbeat_mode scheduleEvents workspaces
              gaps).targetWorkspace = some t ∧
            t ∈ activeWithPages workspaces ∧
            ∀ w ∈ activeWithPages workspaces, t.updated ≤ w.updated) ∧
      (scheduleEvents = [] → activeWithPages workspaces = [] → gaps ≠ [] →
        (decide_heartbeat_mode scheduleEvents workspaces gaps).mode =
          "curious") ∧
      (scheduleEvents = [] → activeWithPages workspaces = [] → gaps = [] →
        (decide_heartbeat_mode scheduleEvents workspaces gaps).mode =
          "bored") ∧
      ((decide_heartbeat_mode scheduleEvents workspaces gaps).shouldMessage =
          true ↔
        (decide_heartbeat_mode scheduleEvents workspaces gaps).mode =
          "urgent") := by
  intro scheduleEvents workspaces gaps
  by_cases hev : scheduleEvents = []
  · subst hev
    have hunfold : (decide_heartbeat_mode ([] : List EventRow) workspaces
        gaps) =
        (if !(activeWithPages workspaces).isEmpty then
          ⟨"targeted", false, [], (leastUpdatedFirst
            (activeWithPages workspaces)).head?, []⟩
        else if !gaps.isEmpty then
          ⟨"curious", false, [], none, gaps.take 5⟩
        else ⟨"bored", false, [], none, []⟩) := by
      simp only [decide_heartbeat_mode, List.isEmpty_nil, Bool.not_true,
        Bool.false_eq_true, if_false]
      rfl
    by_cases hact : activeWithPages workspaces = []
    · have hize : (activeWithPages workspaces).isEmpty = true := by
        simp [hact]
      by_cases hgaps : gaps = []
      · have hgze : gaps.isEmpty = true := by simp [hgaps]
        rw [hunfold]
        simp [hize, hgze, hact, hgaps]
      · have hgze : gaps.isEmpty = false := by simp [hgaps]
        rw [hunfold]
        simp [hize, hgze, hact, hgaps]
    · have hize : (activeWithPages workspaces).isEmpty = false := by
        simp [hact]
      have hunfold2 : decide_heartbeat_mode ([] : List EventRow) workspaces
          gaps =
          ⟨"targeted", false, [],
            (leastUpdatedFirst (activeWithPages workspaces)).head?, []⟩ := by
        rw [hunfold, hize]
        rfl
      rw [hunfold2]
      obtain ⟨t, hhead, htmem, htmin⟩ :=
        leastUpdatedFirst_head_min (activeWithPages workspaces) hact
      refine ⟨fun h => absurd rfl h, ?_, fun _ h => absurd h hact,
        fun _ h => absurd h hact, by simp⟩
      intro _ _
      exact ⟨rfl, t, hhead, htmem, htmin⟩
  · have hize : scheduleEvents.isEmpty = false := by simp [hev]
    have hunfold : (decide_heartbeat_mode scheduleEvents workspaces gaps) =
        ⟨"urgent", true, scheduleEvents, none, []⟩ := by
      simp only [decide_heartbeat_mode, hize, Bool.not_false, if_true]
    rw [hunfold]
    refine ⟨fun _ => rfl, ?_, ?_, ?_, by simp⟩ <;>
      intro h <;> exact absurd h hev

/-- Witness for C8: a concrete targeted decision picks the
least-recently-updated active workspace, and urgent/should-message agree. -/
theorem decide_heartbeat_mode_cascade_witness :
    (decide_heartbeat_mode ([] : List EventRow)
        [⟨"a", "A", 2, "active", "2026-02-02"⟩,
         ⟨"b", "B", 1, "active", "2026-01-01"⟩]
        ([] : List String)).mode = "targeted" ∧
    ∃ t, (decide_heartbeat_mode ([] : List EventRow)
        [⟨"a", "A", 2, "active", "2026-02-02"⟩,
         ⟨"b", "B", 1, "active", "2026-01-01"⟩]
        ([] : List String)).targetWorkspace = some t ∧
      t ∈ activeWithPages
        [⟨"a", "A", 2, "active", "2026-02-02"⟩,
         ⟨"b", "B", 1, "active", "2026-01-01"⟩] ∧
      ∀ w ∈ activeWithPages
        [⟨"a", "A", 2, "active", "2026-02-02"⟩,
         ⟨"b", "B", 1, "active", "2026-01-01"⟩], t.updated ≤ w.updated :=
  (decide_heartbeat_mode_cascade ([] : List EventRow)
    [⟨"a", "A", 2, "active", "2026-02-02"⟩,
     ⟨"b", "B", 1, "active", "2026-01-01"⟩]
    ([] : List String)).2.1 rfl (by decide)

/-- Witness for C10: deleting project `p1` messages below id 2 leaves the
messages of another project untouched. -/
theorem delete_messages_before_spec_witness :
    get_messages (delete_messages_before dbMsgs "p1" 2).2 "other" =
      get_messages dbMsgs "other" :=
  (delete_messages_before_spec dbMsgs "p1" 2).2.2.2.1 "other" (by decide)
